import Mathlib

/-!
Verification of the sequence-position subsystem of YogaFlow-Lite.

The development shallowly embeds the sequence-poses service
(`verifySequenceOwnership`, `resolvePoseVersion`, `getNextPosition`,
`shiftPositionsUp`, `shiftPositionsDown`, `addPoseToSequence`,
`updateSequencePose`, `removeSequencePose`), the Zod request schemas
(`sequence-poses.validation.ts`) and the POST/PATCH HTTP handlers.

The relational store is modelled as explicit table state (`Store`).  Every
store write issued by the service goes through `tryWrite`, which consumes an
optional `writeBudget` (modelling a store-level write fault after a given
number of writes: `none` = all writes succeed) and appends the write to a
`trace`, so that statements about write order and about partial failures can
be made.  Reads are modelled as pure lookups on the table state, mirroring
the query filters (`eq`, `gt`, `gte`, `lt`, `lte`, `order`, `maybeSingle`)
used in the source.
-/

namespace YogaFlow

/-- Error signals thrown by the sequence-poses service (`throw new Error(...)`),
plus `STORE_WRITE_FAILED` standing for a store-level error surfaced from a
failed write (`if (updateError) throw updateError`). -/
inductive Err where
  | SEQUENCE_NOT_FOUND
  | POSE_NOT_FOUND
  | POSE_VERSION_NOT_FOUND
  | SEQUENCE_POSE_NOT_FOUND
  | INVALID_POSITION
  | DURATION_AND_INSTRUCTIONS_NOT_SUPPORTED
  | STORE_WRITE_FAILED
  deriving DecidableEq, Repr

/-- A row of the `sequences` table (the columns read by the service). -/
structure SequenceRow where
  id : Nat
  user_id : Nat
  deriving DecidableEq, Repr

/-- A row of the `sequence_poses` table (the columns used by the service). -/
structure SequencePoseRow where
  id : Nat
  sequence_id : Nat
  pose_id : Nat
  pose_version_id : Nat
  position : Int
  deriving DecidableEq, Repr

/-- A row of the `poses` table (the columns read by the service). -/
structure PoseRow where
  id : Nat
  current_version_id : Option Nat
  deriving DecidableEq, Repr

/-- A row of the `pose_versions` table (the columns read by the service). -/
structure PoseVersionRow where
  id : Nat
  pose_id : Nat
  version : Int
  deriving DecidableEq, Repr

/-- One store-level write issued by the service against `sequence_poses`:
a position update of one row, an insert of a new row, or a delete of one row. -/
inductive WriteOp where
  | upd (rowId : Nat) (newPos : Int)
  | ins (row : SequencePoseRow)
  | del (rowId : Nat)
  deriving DecidableEq, Repr

/-- The relational store.  `nextId` models the id generated by the store for
an inserted row; `writeBudget` models how many writes the store will still
accept before failing (`none` = unlimited); `trace` records every write that
the store accepted, in order. -/
structure Store where
  sequences : List SequenceRow
  sequence_poses : List SequencePoseRow
  poses : List PoseRow
  pose_versions : List PoseVersionRow
  nextId : Nat
  writeBudget : Option Nat
  trace : List WriteOp
  deriving DecidableEq, Repr

/-- `AddPoseToSequenceCommand` from `types.ts`: body of POST
`/sequences/{id}/poses` after validation. -/
structure AddPoseToSequenceCommand where
  poseId : Nat
  poseVersion : Option Int
  position : Option Int
  deriving DecidableEq, Repr

/-- `UpdateSequencePoseCommand` from `types.ts`: body of PATCH
`/sequences/{id}/poses/{entryId}` after validation. -/
structure UpdateSequencePoseCommand where
  position : Option Int
  duration : Option Int
  instructions : Option String
  deriving DecidableEq, Repr

/-- Effect of an accepted write on the table state.  `upd` mirrors
`.update({ position }).eq("id", rowId)`, `ins` mirrors `.insert(...)` (the
store also allocates the next row id), `del` mirrors `.delete().eq("id", rowId)`. -/
def applyOp (st : Store) (op : WriteOp) : Store :=
  match op with
  | .upd rowId newPos =>
      { st with sequence_poses :=
          st.sequence_poses.map fun r =>
            if r.id = rowId then { r with position := newPos } else r }
  | .ins row =>
      { st with sequence_poses := st.sequence_poses ++ [row], nextId := st.nextId + 1 }
  | .del rowId =>
      { st with sequence_poses := st.sequence_poses.filter fun r => decide (r.id ≠ rowId) }

/-- Issue one write: if the write budget is exhausted the store reports an
error (`if (updateError) throw updateError` in the source) and the write has
no effect; otherwise the write is applied and recorded in the trace. -/
def tryWrite (st : Store) (op : WriteOp) : Except Err Unit × Store :=
  match st.writeBudget with
  | some 0 => (Except.error Err.STORE_WRITE_FAILED, st)
  | some (k + 1) =>
      (Except.ok (), { applyOp st op with writeBudget := some k, trace := st.trace ++ [op] })
  | none => (Except.ok (), { applyOp st op with trace := st.trace ++ [op] })

/-- The per-row update loop shared by both shift helpers and by the move
phases of `updateSequencePose`: the rows to update (and the new position of
each, computed from the position fetched before the loop) are fixed up
front; then each update is issued in order, aborting on the first failure. -/
def runUpdates (st : Store) (ws : List (Nat × Int)) : Except Err Unit × Store :=
  match ws with
  | [] => (Except.ok (), st)
  | w :: rest =>
      match tryWrite st (WriteOp.upd w.1 w.2) with
      | (Except.ok _, st1) => runUpdates st1 rest
      | (Except.error e, st1) => (Except.error e, st1)

/-- Ordering used for `.order("position", { ascending: true })`. -/
def posLe (a b : SequencePoseRow) : Prop := a.position ≤ b.position

/-- Ordering used for `.order("position", { ascending: false })`. -/
def posGe (a b : SequencePoseRow) : Prop := b.position ≤ a.position

instance : DecidableRel posLe := fun a b => Int.decLe a.position b.position

instance : DecidableRel posGe := fun a b => Int.decLe b.position a.position

instance : IsTotal SequencePoseRow posLe := ⟨fun a b => Int.le_total a.position b.position⟩

instance : IsTrans SequencePoseRow posLe := ⟨fun _ _ _ hab hbc => le_trans hab hbc⟩

instance : IsTotal SequencePoseRow posGe := ⟨fun a b => Int.le_total b.position a.position⟩

instance : IsTrans SequencePoseRow posGe := ⟨fun _ _ _ hab hbc => le_trans hbc hab⟩

/-- Model of `.order("position", { ascending: true })` on a result set. -/
def sortByPositionAsc (l : List SequencePoseRow) : List SequencePoseRow :=
  l.insertionSort posLe

/-- Model of `.order("position", { ascending: false })` on a result set. -/
def sortByPositionDesc (l : List SequencePoseRow) : List SequencePoseRow :=
  l.insertionSort posGe

/-- The rows of `sequence_poses` with `.eq("sequence_id", sequenceId)`. -/
def seqEntries (st : Store) (sequenceId : Nat) : List SequencePoseRow :=
  st.sequence_poses.filter fun r => decide (r.sequence_id = sequenceId)

/-- `verifySequenceOwnership`: select from `sequences` with
`.eq("id", sequenceId).eq("user_id", userId).maybeSingle()`; throw
`SEQUENCE_NOT_FOUND` when no row matches. -/
def verifySequenceOwnership (st : Store) (sequenceId userId : Nat) :
    Except Err SequenceRow :=
  match st.sequences.find? (fun r => decide (r.id = sequenceId ∧ r.user_id = userId)) with
  | some row => Except.ok row
  | none => Except.error Err.SEQUENCE_NOT_FOUND

/-- `resolvePoseVersion`: if a version number is supplied, it must name an
existing row of `pose_versions` for this pose (else `POSE_VERSION_NOT_FOUND`);
otherwise the pose's `current_version_id` is used (`POSE_NOT_FOUND` when the
pose is missing or has no current version). -/
def resolvePoseVersion (st : Store) (poseId : Nat) (version : Option Int) :
    Except Err Nat :=
  match version with
  | some v =>
      match st.pose_versions.find? (fun r => decide (r.pose_id = poseId ∧ r.version = v)) with
      | some row => Except.ok row.id
      | none => Except.error Err.POSE_VERSION_NOT_FOUND
  | none =>
      match st.poses.find? (fun r => decide (r.id = poseId)) with
      | some pose =>
          match pose.current_version_id with
          | some vid => Except.ok vid
          | none => Except.error Err.POSE_NOT_FOUND
      | none => Except.error Err.POSE_NOT_FOUND

/-- `getNextPosition`: highest `position` of the sequence
(`.order("position", descending).limit(1).maybeSingle()`) plus one,
or `1` when the sequence has no entries. -/
def getNextPosition (st : Store) (sequenceId : Nat) : Int :=
  match ((seqEntries st sequenceId).map fun r => r.position).max? with
  | some m => m + 1
  | none => 1

/-- `shiftPositionsUp`: fetch all rows of the sequence with
`position >= fromPosition` in descending position order, then update each
to `position + 1` individually. -/
def shiftPositionsUp (st : Store) (sequenceId : Nat) (fromPosition : Int) :
    Except Err Unit × Store :=
  let posesToShift :=
    sortByPositionDesc ((seqEntries st sequenceId).filter fun r =>
      decide (fromPosition ≤ r.position))
  runUpdates st (posesToShift.map fun r => (r.id, r.position + 1))

/-- `shiftPositionsDown`: fetch all rows of the sequence with
`position > fromPosition` in ascending position order, then update each to
`position - 1` individually. -/
def shiftPositionsDown (st : Store) (sequenceId : Nat) (fromPosition : Int) :
    Except Err Unit × Store :=
  let posesToShift :=
    sortByPositionAsc ((seqEntries st sequenceId).filter fun r =>
      decide (fromPosition < r.position))
  runUpdates st (posesToShift.map fun r => (r.id, r.position - 1))

/-- `fetchSequencePoseDto`: select the row by id.  The source additionally
joins the pose display columns (name, sanskrit name, image) into the DTO and
throws `SEQUENCE_POSE_NOT_FOUND` when the row or the joined pose is absent;
the join is display-only and its pose is guaranteed by the store's foreign
key from `sequence_poses.pose_id` to `poses.id`, so the model returns the
row itself. -/
def fetchSequencePoseDto (st : Store) (sequencePoseId : Nat) :
    Except Err SequencePoseRow :=
  match st.sequence_poses.find? (fun r => decide (r.id = sequencePoseId)) with
  | some row => Except.ok row
  | none => Except.error Err.SEQUENCE_POSE_NOT_FOUND

/-- `addPoseToSequence`: verify ownership, resolve the pose version, default
the position to the append slot, reject `position > maxPosition`, shift the
tail up when inserting strictly before the end, insert the new row, and
return the fetched row. -/
def addPoseToSequence (st : Store) (userId sequenceId : Nat)
    (command : AddPoseToSequenceCommand) : Except Err SequencePoseRow × Store :=
  match verifySequenceOwnership st sequenceId userId with
  | .error e => (.error e, st)
  | .ok _ =>
  match resolvePoseVersion st command.poseId command.poseVersion with
  | .error e => (.error e, st)
  | .ok poseVersionId =>
  let position := command.position.getD (getNextPosition st sequenceId)
  let maxPosition := getNextPosition st sequenceId
  if position > maxPosition then (.error .INVALID_POSITION, st)
  else
    let shifted : Except Err Unit × Store :=
      match command.position with
      | some p => if p < maxPosition then shiftPositionsUp st sequenceId p else (.ok (), st)
      | none => (.ok (), st)
    match shifted with
    | (.error e, st1) => (.error e, st1)
    | (.ok _, st1) =>
      let newRow : SequencePoseRow :=
        { id := st1.nextId, sequence_id := sequenceId, pose_id := command.poseId,
          pose_version_id := poseVersionId, position := position }
      match tryWrite st1 (.ins newRow) with
      | (.error e, st2) => (.error e, st2)
      | (.ok _, st2) =>
        match fetchSequencePoseDto st2 newRow.id with
        | .error e => (.error e, st2)
        | .ok row => (.ok row, st2)

/-- `updateSequencePose`: verify ownership, require the entry to belong to
the sequence, reject unsupported fields, and on a changed position validate
`1 <= newPosition < maxPosition`, shift the rows strictly between the old
and new position (ascending when moving later, descending when moving
earlier), write the entry's new position, and return the fetched row. -/
def updateSequencePose (st : Store) (userId sequenceId sequencePoseId : Nat)
    (command : UpdateSequencePoseCommand) : Except Err SequencePoseRow × Store :=
  match verifySequenceOwnership st sequenceId userId with
  | .error e => (.error e, st)
  | .ok _ =>
  match st.sequence_poses.find? (fun r =>
      decide (r.id = sequencePoseId ∧ r.sequence_id = sequenceId)) with
  | none => (.error .SEQUENCE_POSE_NOT_FOUND, st)
  | some existingPose =>
  if command.duration.isSome || command.instructions.isSome then
    (.error .DURATION_AND_INSTRUCTIONS_NOT_SUPPORTED, st)
  else
    let moved : Except Err Unit × Store :=
      match command.position with
      | none => (.ok (), st)
      | some newPosition =>
        if newPosition = existingPose.position then (.ok (), st)
        else
          let maxPosition := getNextPosition st sequenceId
          if newPosition < 1 ∨ maxPosition ≤ newPosition then (.error .INVALID_POSITION, st)
          else
            let oldPosition := existingPose.position
            let afterDown : Except Err Unit × Store :=
              if oldPosition < newPosition then
                let posesToShift :=
                  sortByPositionAsc ((seqEntries st sequenceId).filter fun r =>
                    decide (oldPosition < r.position ∧ r.position ≤ newPosition))
                runUpdates st (posesToShift.map fun r => (r.id, r.position - 1))
              else (.ok (), st)
            match afterDown with
            | (.error e, st1) => (.error e, st1)
            | (.ok _, st1) =>
              let afterUp : Except Err Unit × Store :=
                if newPosition < oldPosition then
                  let posesToShift :=
                    sortByPositionDesc ((seqEntries st1 sequenceId).filter fun r =>
                      decide (newPosition ≤ r.position ∧ r.position < oldPosition))
                  runUpdates st1 (posesToShift.map fun r => (r.id, r.position + 1))
                else (.ok (), st1)
              match afterUp with
              | (.error e, st2) => (.error e, st2)
              | (.ok _, st2) => tryWrite st2 (.upd sequencePoseId newPosition)
    match moved with
    | (.error e, stm) => (.error e, stm)
    | (.ok _, stm) =>
      match fetchSequencePoseDto stm sequencePoseId with
      | .error e => (.error e, stm)
      | .ok row => (.ok row, stm)

/-- `removeSequencePose`: verify ownership, require the entry to belong to
the sequence, delete it, then collapse the gap by shifting every later row
down by one. -/
def removeSequencePose (st : Store) (userId sequenceId sequencePoseId : Nat) :
    Except Err Unit × Store :=
  match verifySequenceOwnership st sequenceId userId with
  | .error e => (.error e, st)
  | .ok _ =>
  match st.sequence_poses.find? (fun r =>
      decide (r.id = sequencePoseId ∧ r.sequence_id = sequenceId)) with
  | none => (.error .SEQUENCE_POSE_NOT_FOUND, st)
  | some existingPose =>
    let deletedPosition := existingPose.position
    match tryWrite st (.del sequencePoseId) with
    | (.error e, st1) => (.error e, st1)
    | (.ok _, st1) => shiftPositionsDown st1 sequenceId deletedPosition

/-! ### HTTP layer: Zod request schemas and the POST / PATCH handlers -/

/-- A JSON field value as the Zod schemas discriminate it: an integral
number, a non-integral number, a string, or anything else. -/
inductive JsonVal where
  | jint (n : Int)
  | jnonIntNum
  | jstr (s : String)
  | jother
  deriving DecidableEq, Repr

/-- `z.number().int().positive().optional()`: an absent field passes and
stays absent; a present field must be an integral number `>= 1`. -/
def zodPositiveInt : Option JsonVal → Option (Option Int)
  | Option.none => some none
  | some (.jint n) => if 1 ≤ n then some (some n) else none
  | some _ => none

/-- `z.number().int().nonnegative().optional()`. -/
def zodNonnegInt : Option JsonVal → Option (Option Int)
  | Option.none => some none
  | some (.jint n) => if 0 ≤ n then some (some n) else none
  | some _ => none

/-- `z.string().max(1000).optional()`. -/
def zodShortText : Option JsonVal → Option (Option String)
  | Option.none => some none
  | some (.jstr s) => if s.length ≤ 1000 then some (some s) else none
  | some _ => none

/-- Body of POST `/sequences/{id}/poses` before validation.  `poseId` is a
UUID string in the source, abstracted here to the pose id it denotes
(`none` = absent or not a well-formed UUID, which the schema rejects). -/
structure AddPoseRequestBody where
  poseId : Option Nat
  poseVersion : Option JsonVal
  position : Option JsonVal
  deriving DecidableEq, Repr

/-- Body of PATCH `/sequences/{id}/poses/{entryId}` before validation. -/
structure UpdatePoseRequestBody where
  position : Option JsonVal
  duration : Option JsonVal
  instructions : Option JsonVal
  deriving DecidableEq, Repr

/-- `addPoseToSequenceSchema.safeParse`: requires a UUID `poseId`, and
optional positive-integer `poseVersion` and `position`. -/
def addPoseToSequenceSchemaParse (b : AddPoseRequestBody) :
    Option AddPoseToSequenceCommand :=
  match b.poseId, zodPositiveInt b.poseVersion, zodPositiveInt b.position with
  | some pid, some pv, some pos =>
      some { poseId := pid, poseVersion := pv, position := pos }
  | _, _, _ => none

/-- `updateSequencePoseSchema.safeParse`: optional positive-integer
`position`, optional non-negative-integer `duration`, optional short-string
`instructions`, refined so that at least one field is present. -/
def updateSequencePoseSchemaParse (b : UpdatePoseRequestBody) :
    Option UpdateSequencePoseCommand :=
  match zodPositiveInt b.position, zodNonnegInt b.duration, zodShortText b.instructions with
  | some pos, some dur, some txt =>
      if pos.isSome || dur.isSome || txt.isSome then
        some { position := pos, duration := dur, instructions := txt }
      else none
  | _, _, _ => none

/-- Error codes surfaced in HTTP error responses. -/
inductive ApiCode where
  | VALIDATION_ERROR
  | SEQUENCE_NOT_FOUND
  | SEQUENCE_POSE_NOT_FOUND
  | POSE_NOT_FOUND
  | POSE_VERSION_NOT_FOUND
  | INVALID_POSITION
  | FEATURE_NOT_SUPPORTED
  | INTERNAL_ERROR
  deriving DecidableEq, Repr

/-- An HTTP response as far as the claims observe it: a success with the
entry DTO, a success with no content, or an error status and code. -/
inductive ApiResponse where
  | entry (status : Nat) (row : SequencePoseRow)
  | noContent (status : Nat)
  | failure (status : Nat) (code : ApiCode)
  deriving DecidableEq, Repr

/-- The `catch` block of the POST handler: which status and code each
service error is surfaced as. -/
def postErrorResponse : Err → ApiResponse
  | .SEQUENCE_NOT_FOUND => .failure 404 .SEQUENCE_NOT_FOUND
  | .POSE_NOT_FOUND => .failure 400 .POSE_NOT_FOUND
  | .POSE_VERSION_NOT_FOUND => .failure 400 .POSE_VERSION_NOT_FOUND
  | .INVALID_POSITION => .failure 400 .INVALID_POSITION
  | _ => .failure 500 .INTERNAL_ERROR

/-- The `catch` block of the PATCH handler. -/
def patchErrorResponse : Err → ApiResponse
  | .SEQUENCE_NOT_FOUND => .failure 404 .SEQUENCE_NOT_FOUND
  | .SEQUENCE_POSE_NOT_FOUND => .failure 404 .SEQUENCE_POSE_NOT_FOUND
  | .INVALID_POSITION => .failure 400 .INVALID_POSITION
  | .DURATION_AND_INSTRUCTIONS_NOT_SUPPORTED => .failure 400 .FEATURE_NOT_SUPPORTED
  | _ => .failure 500 .INTERNAL_ERROR

/-- POST `/sequences/{sequenceId}/poses` after authentication and path
validation: validate the body with the Zod schema (rejecting with
`VALIDATION_ERROR` 400 before the service is invoked), then call
`addPoseToSequence` and shape the response. -/
def handlePOST (st : Store) (userId sequenceId : Nat) (body : AddPoseRequestBody) :
    ApiResponse × Store :=
  match addPoseToSequenceSchemaParse body with
  | none => (.failure 400 .VALIDATION_ERROR, st)
  | some command =>
      match addPoseToSequence st userId sequenceId command with
      | (.ok row, st1) => (.entry 201 row, st1)
      | (.error e, st1) => (postErrorResponse e, st1)

/-- PATCH `/sequences/{sequenceId}/poses/{sequencePoseId}` after
authentication and path validation. -/
def handlePATCH (st : Store) (userId sequenceId sequencePoseId : Nat)
    (body : UpdatePoseRequestBody) : ApiResponse × Store :=
  match updateSequencePoseSchemaParse body with
  | none => (.failure 400 .VALIDATION_ERROR, st)
  | some command =>
      match updateSequencePose st userId sequenceId sequencePoseId command with
      | (.ok row, st1) => (.entry 200 row, st1)
      | (.error e, st1) => (patchErrorResponse e, st1)

/-- Modelled from the spec: publication of a new immutable PoseVersion for a
pose, repointing the pose's `current_version_id`.  Version publication is
admin-only and has no service code in the repository (the migration only
declares the tables and policies); per the spec it creates a `pose_versions`
row when canonical content changes and never touches `sequence_poses`. -/
def publishPoseVersion (st : Store) (poseId newVersionId : Nat) (version : Int) : Store :=
  { st with
    pose_versions :=
      st.pose_versions ++ [{ id := newVersionId, pose_id := poseId, version := version }],
    poses := st.poses.map fun p =>
      if p.id = poseId then { p with current_version_id := some newVersionId } else p }

/-! ### Invariants and observation functions -/

/-- The positions of a sequence's entries, in row order. -/
def positionsOf (st : Store) (sequenceId : Nat) : List Int :=
  (seqEntries st sequenceId).map fun r => r.position

/-- The list `[k, k + 1, ..., k + n - 1]`. -/
def denseFrom (k : Int) : Nat → List Int
  | 0 => []
  | n + 1 => k :: denseFrom (k + 1) n

/-- The dense range `[1, 2, ..., n]`. -/
def denseRange (n : Nat) : List Int := denseFrom 1 n

/-- Dense-position invariant for one sequence: the positions are exactly
`{1, ..., N}` (as a multiset) where `N` is the entry count. -/
def Dense (st : Store) (sequenceId : Nat) : Prop :=
  (positionsOf st sequenceId).Perm (denseRange (positionsOf st sequenceId).length)

/-- Store well-formedness guaranteed by the schema: row ids of
`sequence_poses` are unique (primary key) and below the store's next
generated id. -/
def WF (st : Store) : Prop :=
  (st.sequence_poses.map fun r => r.id).Nodup ∧
    ∀ r ∈ st.sequence_poses, r.id < st.nextId

/-! ### The per-row update loop, characterised -/

/-- Effect of one position update on one row. -/
def updRow (w : Nat × Int) (r : SequencePoseRow) : SequencePoseRow :=
  if r.id = w.1 then { r with position := w.2 } else r

/-- Effect of a list of position updates on a table. -/
def applyUpdList (ws : List (Nat × Int)) (rows : List SequencePoseRow) :
    List SequencePoseRow :=
  ws.foldl (fun rows w => rows.map (updRow w)) rows

/-- Effect of a list of position updates on one row. -/
def applyUpdsRow (ws : List (Nat × Int)) (r : SequencePoseRow) : SequencePoseRow :=
  ws.foldl (fun r w => updRow w r) r

theorem runUpdates_ok (ws : List (Nat × Int)) (st : Store) (hb : st.writeBudget = none) :
    runUpdates st ws =
      (Except.ok (),
        { st with
          sequence_poses := applyUpdList ws st.sequence_poses,
          trace := st.trace ++ ws.map fun w => WriteOp.upd w.1 w.2 }) := by
  induction ws generalizing st with
  | nil => simp [runUpdates, applyUpdList]
  | cons w ws ih =>
      have hstep : tryWrite st (WriteOp.upd w.1 w.2) =
          (Except.ok (),
            { st with
              sequence_poses := st.sequence_poses.map (updRow w),
              trace := st.trace ++ [WriteOp.upd w.1 w.2] }) := by
        simp [tryWrite, applyOp, hb, updRow]
      simp only [runUpdates, hstep]
      rw [ih _ (by simp [hb])]
      simp [applyUpdList, List.append_assoc]

theorem applyUpdList_eq_map (ws : List (Nat × Int)) (rows : List SequencePoseRow) :
    applyUpdList ws rows = rows.map (applyUpdsRow ws) := by
  induction ws generalizing rows with
  | nil =>
      show rows = rows.map (applyUpdsRow [])
      rw [show applyUpdsRow [] = id from rfl, List.map_id]
  | cons w ws ih =>
      have h1 : applyUpdList (w :: ws) rows = applyUpdList ws (rows.map (updRow w)) := rfl
      rw [h1, ih, List.map_map]
      rfl

theorem updRow_id (w : Nat × Int) (r : SequencePoseRow) : (updRow w r).id = r.id := by
  unfold updRow; split <;> rfl

theorem applyUpdsRow_of_no_key (ws : List (Nat × Int)) (r : SequencePoseRow)
    (h : ∀ w ∈ ws, w.1 ≠ r.id) : applyUpdsRow ws r = r := by
  induction ws with
  | nil => rfl
  | cons w ws ih =>
      have hw : updRow w r = r := by
        unfold updRow
        rw [if_neg fun hr => h w (List.mem_cons_self _ _) hr.symm]
      have h1 : applyUpdsRow (w :: ws) r = applyUpdsRow ws (updRow w r) := rfl
      rw [h1, hw]
      exact ih fun w hwm => h w (List.mem_cons_of_mem _ hwm)

theorem applyUpdsRow_split (ws1 ws2 : List (Nat × Int)) (r : SequencePoseRow) (p : Int)
    (h1 : ∀ w ∈ ws1, w.1 ≠ r.id) (h2 : ∀ w ∈ ws2, w.1 ≠ r.id) :
    applyUpdsRow (ws1 ++ (r.id, p) :: ws2) r = { r with position := p } := by
  have hsplit : applyUpdsRow (ws1 ++ (r.id, p) :: ws2) r
      = applyUpdsRow ((r.id, p) :: ws2) (applyUpdsRow ws1 r) := by
    simp [applyUpdsRow, List.foldl_append]
  rw [hsplit, applyUpdsRow_of_no_key ws1 r h1]
  have hmid : updRow (r.id, p) r = { r with position := p } := by
    unfold updRow; rw [if_pos rfl]
  have hcons : applyUpdsRow ((r.id, p) :: ws2) r
      = applyUpdsRow ws2 { r with position := p } := by
    have h1 : applyUpdsRow ((r.id, p) :: ws2) r = applyUpdsRow ws2 (updRow (r.id, p) r) := rfl
    rw [h1, hmid]
  rw [hcons]
  exact applyUpdsRow_of_no_key ws2 _ h2

/-- Master characterisation of a shift phase: fetching the rows matching a
predicate, sorting them (any permutation), and updating each one to a new
position computed from its fetched position is, when every write succeeds and
row ids are unique, the pointwise remap of the matching rows. -/
theorem applyUpdList_sorted_filter (rows : List SequencePoseRow)
    (q : SequencePoseRow → Prop) [DecidablePred q] (g : Int → Int)
    (sorted : List SequencePoseRow)
    (hperm : sorted.Perm (rows.filter fun r => decide (q r)))
    (hnd : (rows.map fun r => r.id).Nodup) :
    applyUpdList (sorted.map fun x => (x.id, g x.position)) rows
      = rows.map fun r => if q r then { r with position := g r.position } else r := by
  rw [applyUpdList_eq_map]
  apply List.map_congr_left
  intro r hr
  by_cases hq : q r
  · have hrf : r ∈ rows.filter fun r => decide (q r) :=
      List.mem_filter.mpr ⟨hr, by simpa using hq⟩
    have hrs : r ∈ sorted := hperm.mem_iff.mpr hrf
    obtain ⟨s1, s2, hs⟩ := List.append_of_mem hrs
    have hndf : ((rows.filter fun r => decide (q r)).map fun r => r.id).Nodup :=
      hnd.sublist ((List.filter_sublist rows).map _)
    have hnds : (sorted.map fun r => r.id).Nodup :=
      ((hperm.map _).nodup_iff).mpr hndf
    rw [hs, List.map_append, List.map_cons] at hnds
    have hnds2 := List.nodup_middle.mp hnds
    have hnotin : r.id ∉ (s1.map fun r => r.id) ++ (s2.map fun r => r.id) :=
      (List.nodup_cons.mp hnds2).1
    have hnot1 : r.id ∉ s1.map fun r => r.id :=
      fun h => hnotin (List.mem_append.mpr (Or.inl h))
    have hnot2 : r.id ∉ s2.map fun r => r.id :=
      fun h => hnotin (List.mem_append.mpr (Or.inr h))
    have hk1 : ∀ w ∈ s1.map fun x => (x.id, g x.position), w.1 ≠ r.id := by
      intro w hw he
      obtain ⟨x, hx, hxe⟩ := List.mem_map.mp hw
      have hxid : x.id = r.id := by rw [← hxe] at he; exact he
      exact hnot1 (List.mem_map.mpr ⟨x, hx, hxid⟩)
    have hk2 : ∀ w ∈ s2.map fun x => (x.id, g x.position), w.1 ≠ r.id := by
      intro w hw he
      obtain ⟨x, hx, hxe⟩ := List.mem_map.mp hw
      have hxid : x.id = r.id := by rw [← hxe] at he; exact he
      exact hnot2 (List.mem_map.mpr ⟨x, hx, hxid⟩)
    rw [hs, List.map_append, List.map_cons]
    rw [applyUpdsRow_split (s1.map fun x => (x.id, g x.position))
      (s2.map fun x => (x.id, g x.position)) r (g r.position) hk1 hk2]
    rw [if_pos hq]
  · have hkeys : ∀ w ∈ sorted.map fun x => (x.id, g x.position), w.1 ≠ r.id := by
      intro w hw he
      obtain ⟨x, hx, hxe⟩ := List.mem_map.mp hw
      have hxf : x ∈ rows.filter fun r => decide (q r) := hperm.mem_iff.mp hx
      have hxr : x ∈ rows := List.mem_of_mem_filter hxf
      have hqx : q x := by simpa using List.of_mem_filter hxf
      have hxid : x.id = r.id := by rw [← hxe] at he; exact he
      have hxr2 : x = r := List.inj_on_of_nodup_map hnd hxr hr hxid
      exact hq (hxr2 ▸ hqx)
    rw [applyUpdsRow_of_no_key _ _ hkeys, if_neg hq]

/-! ### Generic list utilities -/

theorem le_of_max?_eq_some {l : List Int} {m : Int} (h : l.max? = some m) :
    ∀ x ∈ l, x ≤ m :=
  (List.max?_le_iff (fun _ _ _ => max_le_iff) h).mp le_rfl

theorem mem_of_max?_eq_some {l : List Int} {m : Int} (h : l.max? = some m) : m ∈ l :=
  List.max?_mem (fun a b => max_choice a b) h

theorem filter_map_pres {α : Type} (f : α → α) (p : α → Bool) (l : List α)
    (h : ∀ x, p (f x) = p x) : (l.map f).filter p = (l.filter p).map f := by
  induction l with
  | nil => rfl
  | cons a l ih =>
      rw [List.map_cons, List.filter_cons, List.filter_cons, h a]
      cases p a <;> simp [ih]

theorem find?_map_pres (f : SequencePoseRow → SequencePoseRow)
    (p : SequencePoseRow → Bool) (l : List SequencePoseRow)
    (h : ∀ x, p (f x) = p x) : (l.map f).find? p = (l.find? p).map f := by
  induction l with
  | nil => rfl
  | cons a l ih =>
      rw [List.map_cons, List.find?_cons, List.find?_cons, h a]
      cases p a <;> simp [ih]

/-- With unique row ids, a row found by id and sequence is also the row found
by id alone. -/
theorem find?_by_id_of_find?_pair {l : List SequencePoseRow} {i s : Nat}
    {t : SequencePoseRow} (hnd : (l.map fun r => r.id).Nodup)
    (hfind : l.find? (fun r => decide (r.id = i ∧ r.sequence_id = s)) = some t) :
    l.find? (fun r => decide (r.id = i)) = some t := by
  have ht : t ∈ l := List.mem_of_find?_eq_some hfind
  have hti : t.id = i ∧ t.sequence_id = s := by simpa using List.find?_some hfind
  have hsome : (l.find? fun r => decide (r.id = i)).isSome :=
    List.find?_isSome.mpr ⟨t, ht, by simp [hti.1]⟩
  obtain ⟨u, hu⟩ := Option.isSome_iff_exists.mp hsome
  have hum : u ∈ l := List.mem_of_find?_eq_some hu
  have hui : u.id = i := by simpa using List.find?_some hu
  have : u = t := List.inj_on_of_nodup_map hnd hum ht (by rw [hui, hti.1])
  rw [hu, this]

/-! ### Characterisation of the two shift helpers -/

theorem shiftPositionsUp_ok (st : Store) (sequenceId : Nat) (fromPosition : Int)
    (hb : st.writeBudget = none)
    (hnd : (st.sequence_poses.map fun r => r.id).Nodup) :
    shiftPositionsUp st sequenceId fromPosition =
      (Except.ok (),
        { st with
          sequence_poses := st.sequence_poses.map fun r =>
            if r.sequence_id = sequenceId ∧ fromPosition ≤ r.position then
              { r with position := r.position + 1 }
            else r,
          trace := st.trace ++
            (sortByPositionDesc ((seqEntries st sequenceId).filter fun r =>
              decide (fromPosition ≤ r.position))).map
              fun r => WriteOp.upd r.id (r.position + 1) }) := by
  simp only [shiftPositionsUp]
  rw [runUpdates_ok _ _ hb]
  have hL : (seqEntries st sequenceId).filter (fun r => decide (fromPosition ≤ r.position))
      = st.sequence_poses.filter fun r =>
          decide (r.sequence_id = sequenceId ∧ fromPosition ≤ r.position) := by
    simp only [seqEntries, List.filter_filter]
    exact List.filter_congr fun x _ => by
      by_cases h1 : fromPosition ≤ x.position <;>
        by_cases h2 : x.sequence_id = sequenceId <;> simp [h1, h2]
  have hmap := applyUpdList_sorted_filter st.sequence_poses
    (fun r => r.sequence_id = sequenceId ∧ fromPosition ≤ r.position)
    (fun p => p + 1)
    (sortByPositionDesc ((seqEntries st sequenceId).filter fun r =>
      decide (fromPosition ≤ r.position)))
    (by rw [hL] at *; exact List.perm_insertionSort _ _) hnd
  rw [hmap, List.map_map]
  rfl

theorem shiftPositionsDown_ok (st : Store) (sequenceId : Nat) (fromPosition : Int)
    (hb : st.writeBudget = none)
    (hnd : (st.sequence_poses.map fun r => r.id).Nodup) :
    shiftPositionsDown st sequenceId fromPosition =
      (Except.ok (),
        { st with
          sequence_poses := st.sequence_poses.map fun r =>
            if r.sequence_id = sequenceId ∧ fromPosition < r.position then
              { r with position := r.position - 1 }
            else r,
          trace := st.trace ++
            (sortByPositionAsc ((seqEntries st sequenceId).filter fun r =>
              decide (fromPosition < r.position))).map
              fun r => WriteOp.upd r.id (r.position - 1) }) := by
  simp only [shiftPositionsDown]
  rw [runUpdates_ok _ _ hb]
  have hL : (seqEntries st sequenceId).filter (fun r => decide (fromPosition < r.position))
      = st.sequence_poses.filter fun r =>
          decide (r.sequence_id = sequenceId ∧ fromPosition < r.position) := by
    simp only [seqEntries, List.filter_filter]
    exact List.filter_congr fun x _ => by
      by_cases h1 : fromPosition < x.position <;>
        by_cases h2 : x.sequence_id = sequenceId <;> simp [h1, h2]
  have hmap := applyUpdList_sorted_filter st.sequence_poses
    (fun r => r.sequence_id = sequenceId ∧ fromPosition < r.position)
    (fun p => p - 1)
    (sortByPositionAsc ((seqEntries st sequenceId).filter fun r =>
      decide (fromPosition < r.position)))
    (by rw [hL] at *; exact List.perm_insertionSort _ _) hnd
  rw [hmap, List.map_map]
  rfl

/-! ### Arithmetic of dense ranges under insert / move / remove remaps -/

theorem length_denseFrom (k : Int) (n : Nat) : (denseFrom k n).length = n := by
  induction n generalizing k with
  | zero => rfl
  | succ n ih => simp [denseFrom, ih]

theorem mem_denseFrom {p k : Int} {n : Nat} : p ∈ denseFrom k n ↔ k ≤ p ∧ p < k + n := by
  induction n generalizing k with
  | zero =>
      simp only [denseFrom, List.not_mem_nil, false_iff]
      omega
  | succ n ih =>
      simp only [denseFrom, List.mem_cons, ih]
      omega

theorem nodup_denseFrom (k : Int) (n : Nat) : (denseFrom k n).Nodup := by
  induction n generalizing k with
  | zero => exact List.nodup_nil
  | succ n ih =>
      refine List.nodup_cons.mpr ⟨?_, ih (k + 1)⟩
      intro hmem
      have := mem_denseFrom.mp hmem
      omega

theorem denseFrom_append (k : Int) (a b : Nat) :
    denseFrom k (a + b) = denseFrom k a ++ denseFrom (k + a) b := by
  induction a generalizing k with
  | zero =>
      rw [Nat.zero_add]
      simp [denseFrom]
  | succ a ih =>
      rw [show a + 1 + b = (a + b) + 1 from by omega]
      show k :: denseFrom (k + 1) (a + b) = (k :: denseFrom (k + 1) a) ++ denseFrom (k + ↑(a + 1)) b
      rw [List.cons_append, ih]
      congr 2
      push_cast
      ring_nf

theorem denseFrom_map_shift (g : Int → Int) (d k : Int) (n : Nat)
    (h : ∀ p, k ≤ p → p < k + n → g p = p + d) :
    (denseFrom k n).map g = denseFrom (k + d) n := by
  induction n generalizing k with
  | zero => rfl
  | succ n ih =>
      show (k :: denseFrom (k + 1) n).map g = (k + d) :: denseFrom (k + d + 1) n
      rw [List.map_cons]
      congr 1
      · exact h k le_rfl (by omega)
      · rw [ih (k + 1) fun p hp1 hp2 => h p (by omega) (by push_cast at hp2 ⊢; omega)]
        congr 1
        omega

/-- Inserting `k` into `{1..n}` after shifting everything at or above `k` up
by one yields exactly `{1..n+1}`. -/
theorem perm_insert_dense (n : Nat) (k : Int) (h1 : 1 ≤ k) (h2 : k ≤ (n : Int) + 1) :
    (((denseRange n).map fun p => if k ≤ p then p + 1 else p) ++ [k]).Perm
      (denseRange (n + 1)) := by
  obtain ⟨m, hm⟩ : ∃ m : Nat, (m : Int) = k - 1 := ⟨(k - 1).toNat, by omega⟩
  have hsplit : denseRange n = denseFrom 1 m ++ denseFrom (1 + m) (n - m) := by
    rw [denseRange, ← denseFrom_append]
    congr 1
    omega
  have hlow : (denseFrom 1 m).map (fun p => if k ≤ p then p + 1 else p) = denseFrom 1 m := by
    have h := denseFrom_map_shift (fun p => if k ≤ p then p + 1 else p) 0 1 m
      fun p hp1 hp2 => by dsimp only; rw [if_neg (by omega)]; omega
    simpa using h
  have hhigh : (denseFrom (1 + m) (n - m)).map (fun p => if k ≤ p then p + 1 else p)
      = denseFrom (k + 1) (n - m) := by
    have h := denseFrom_map_shift (fun p => if k ≤ p then p + 1 else p) 1 (1 + m) (n - m)
      fun p hp1 hp2 => by dsimp only; rw [if_pos (by omega)]
    rw [h]
    congr 1
    omega
  have htgt : denseRange (n + 1) = denseFrom 1 m ++ (k :: denseFrom (k + 1) (n - m)) := by
    rw [denseRange, show n + 1 = m + ((n - m) + 1) from by omega, denseFrom_append]
    congr 1
    show denseFrom (1 + (m : Int)) ((n - m) + 1) = k :: denseFrom (k + 1) (n - m)
    rw [show (1 + (m : Int)) = k from by omega]
    rfl
  rw [hsplit, List.map_append, hlow, hhigh, htgt, List.append_assoc]
  exact List.Perm.append_left _ (List.perm_append_singleton k _)

/-- Moving the element `o` of `{1..n}` later to `j` (shifting `(o, j]` down
by one) permutes `{1..n}`. -/
theorem perm_move_later_dense (n : Nat) (o j : Int) (h1 : 1 ≤ o) (h2 : o < j)
    (h3 : j ≤ (n : Int)) :
    ((denseRange n).map fun p =>
      if p = o then j else if o < p ∧ p ≤ j then p - 1 else p).Perm (denseRange n) := by
  obtain ⟨a, ha⟩ : ∃ a : Nat, (a : Int) = o - 1 := ⟨(o - 1).toNat, by omega⟩
  obtain ⟨b, hb⟩ : ∃ b : Nat, (b : Int) = j - o := ⟨(j - o).toNat, by omega⟩
  obtain ⟨c, hc⟩ : ∃ c : Nat, (c : Int) = (n : Int) - j := ⟨((n : Int) - j).toNat, by omega⟩
  have hsplit : denseRange n
      = denseFrom 1 a ++ (o :: (denseFrom (o + 1) b ++ denseFrom (j + 1) c)) := by
    rw [denseRange, show n = a + ((b + c) + 1) from by omega, denseFrom_append]
    congr 1
    show denseFrom (1 + (a : Int)) ((b + c) + 1)
        = o :: (denseFrom (o + 1) b ++ denseFrom (j + 1) c)
    rw [show (1 + (a : Int)) = o from by omega]
    show o :: denseFrom (o + 1) (b + c) = o :: (denseFrom (o + 1) b ++ denseFrom (j + 1) c)
    rw [denseFrom_append, show o + 1 + (b : Int) = j + 1 from by omega]
  have hlow : (denseFrom 1 a).map
      (fun p => if p = o then j else if o < p ∧ p ≤ j then p - 1 else p) = denseFrom 1 a := by
    have h := denseFrom_map_shift
      (fun p => if p = o then j else if o < p ∧ p ≤ j then p - 1 else p) 0 1 a
      fun p hp1 hp2 => by dsimp only; rw [if_neg (by omega), if_neg (by omega)]; omega
    simpa using h
  have hmid : (denseFrom (o + 1) b).map
      (fun p => if p = o then j else if o < p ∧ p ≤ j then p - 1 else p)
      = denseFrom o b := by
    have h := denseFrom_map_shift
      (fun p => if p = o then j else if o < p ∧ p ≤ j then p - 1 else p) (-1) (o + 1) b
      fun p hp1 hp2 => by dsimp only; rw [if_neg (by omega), if_pos (by omega)]; omega
    rw [h]
    congr 1
    omega
  have hhigh : (denseFrom (j + 1) c).map
      (fun p => if p = o then j else if o < p ∧ p ≤ j then p - 1 else p)
      = denseFrom (j + 1) c := by
    have h := denseFrom_map_shift
      (fun p => if p = o then j else if o < p ∧ p ≤ j then p - 1 else p) 0 (j + 1) c
      fun p hp1 hp2 => by dsimp only; rw [if_neg (by omega), if_neg (by omega)]; omega
    simpa using h
  have hsnoc : denseFrom o b ++ [j] = o :: denseFrom (o + 1) b := by
    have h := denseFrom_append o b 1
    rw [show denseFrom (o + (b : Int)) 1 = [j] from by
        rw [show o + (b : Int) = j from by omega]; rfl] at h
    rw [← h]
    rfl
  have hperm2 : (j :: denseFrom o b).Perm (o :: denseFrom (o + 1) b) := by
    rw [← hsnoc]
    exact (List.perm_append_singleton j (denseFrom o b)).symm
  rw [hsplit, List.map_append, List.map_cons, hlow, List.map_append, hmid, hhigh,
    if_pos rfl]
  apply List.Perm.append_left
  show ((j :: denseFrom o b) ++ denseFrom (j + 1) c).Perm
    ((o :: denseFrom (o + 1) b) ++ denseFrom (j + 1) c)
  exact hperm2.append_right _

/-- Moving the element `o` of `{1..n}` earlier to `j` (shifting `[j, o)` up
by one) permutes `{1..n}`. -/
theorem perm_move_earlier_dense (n : Nat) (o j : Int) (h1 : 1 ≤ j) (h2 : j < o)
    (h3 : o ≤ (n : Int)) :
    ((denseRange n).map fun p =>
      if p = o then j else if j ≤ p ∧ p < o then p + 1 else p).Perm (denseRange n) := by
  obtain ⟨a, ha⟩ : ∃ a : Nat, (a : Int) = j - 1 := ⟨(j - 1).toNat, by omega⟩
  obtain ⟨b, hb⟩ : ∃ b : Nat, (b : Int) = o - j := ⟨(o - j).toNat, by omega⟩
  obtain ⟨c, hc⟩ : ∃ c : Nat, (c : Int) = (n : Int) - o := ⟨((n : Int) - o).toNat, by omega⟩
  have hsplit : denseRange n
      = denseFrom 1 a ++ (denseFrom j b ++ (o :: denseFrom (o + 1) c)) := by
    rw [denseRange, show n = a + (b + (c + 1)) from by omega, denseFrom_append]
    congr 1
    show denseFrom (1 + (a : Int)) (b + (c + 1))
        = denseFrom j b ++ (o :: denseFrom (o + 1) c)
    rw [show (1 + (a : Int)) = j from by omega, denseFrom_append,
      show j + (b : Int) = o from by omega]
    rfl
  have hlow : (denseFrom 1 a).map
      (fun p => if p = o then j else if j ≤ p ∧ p < o then p + 1 else p) = denseFrom 1 a := by
    have h := denseFrom_map_shift
      (fun p => if p = o then j else if j ≤ p ∧ p < o then p + 1 else p) 0 1 a
      fun p hp1 hp2 => by dsimp only; rw [if_neg (by omega), if_neg (by omega)]; omega
    simpa using h
  have hmid : (denseFrom j b).map
      (fun p => if p = o then j else if j ≤ p ∧ p < o then p + 1 else p)
      = denseFrom (j + 1) b := by
    exact denseFrom_map_shift
      (fun p => if p = o then j else if j ≤ p ∧ p < o then p + 1 else p) 1 j b
      fun p hp1 hp2 => by dsimp only; rw [if_neg (by omega), if_pos (by omega)]
  have hhigh : (denseFrom (o + 1) c).map
      (fun p => if p = o then j else if j ≤ p ∧ p < o then p + 1 else p)
      = denseFrom (o + 1) c := by
    have h := denseFrom_map_shift
      (fun p => if p = o then j else if j ≤ p ∧ p < o then p + 1 else p) 0 (o + 1) c
      fun p hp1 hp2 => by dsimp only; rw [if_neg (by omega), if_neg (by omega)]; omega
    simpa using h
  have hsnoc : denseFrom j b ++ [o] = j :: denseFrom (j + 1) b := by
    have h := denseFrom_append j b 1
    rw [show denseFrom (j + (b : Int)) 1 = [o] from by
        rw [show j + (b : Int) = o from by omega]; rfl] at h
    rw [← h]
    rfl
  rw [hsplit, List.map_append, hlow, List.map_append, hmid, List.map_cons, if_pos rfl,
    hhigh]
  apply List.Perm.append_left
  calc (denseFrom (j + 1) b ++ (j :: denseFrom (o + 1) c)).Perm
        (j :: (denseFrom (j + 1) b ++ denseFrom (o + 1) c)) := List.perm_middle
    _ = (j :: denseFrom (j + 1) b) ++ denseFrom (o + 1) c := rfl
    _ = (denseFrom j b ++ [o]) ++ denseFrom (o + 1) c := by rw [hsnoc]
    _ = denseFrom j b ++ (o :: denseFrom (o + 1) c) := by
        rw [List.append_assoc]
        rfl

/-- Removing the element `o` from `{1..n}` and shifting everything above `o`
down by one yields exactly `{1..n-1}`. -/
theorem perm_remove_dense (n : Nat) (o : Int) (l1 l2 : List Int) (h1 : 1 ≤ o)
    (h2 : o ≤ (n : Int)) (hperm : (l1 ++ o :: l2).Perm (denseRange n)) :
    ((l1 ++ l2).map fun p => if o < p then p - 1 else p).Perm (denseRange (n - 1)) := by
  obtain ⟨a, ha⟩ : ∃ a : Nat, (a : Int) = o - 1 := ⟨(o - 1).toNat, by omega⟩
  obtain ⟨c, hc⟩ : ∃ c : Nat, (c : Int) = (n : Int) - o := ⟨((n : Int) - o).toNat, by omega⟩
  have hsplit : denseRange n = denseFrom 1 a ++ (o :: denseFrom (o + 1) c) := by
    rw [denseRange, show n = a + (c + 1) from by omega, denseFrom_append]
    congr 1
    show denseFrom (1 + (a : Int)) (c + 1) = o :: denseFrom (o + 1) c
    rw [show (1 + (a : Int)) = o from by omega]
    rfl
  have hstep : (o :: (l1 ++ l2)).Perm (o :: (denseFrom 1 a ++ denseFrom (o + 1) c)) := by
    refine (List.perm_middle.symm.trans hperm).trans ?_
    rw [hsplit]
    exact List.perm_middle
  have hmain : (l1 ++ l2).Perm (denseFrom 1 a ++ denseFrom (o + 1) c) := hstep.cons_inv
  have hmap := hmain.map fun p => if o < p then p - 1 else p
  have hlow : (denseFrom 1 a).map (fun p => if o < p then p - 1 else p) = denseFrom 1 a := by
    have h := denseFrom_map_shift (fun p => if o < p then p - 1 else p) 0 1 a
      fun p hp1 hp2 => by dsimp only; rw [if_neg (by omega)]; omega
    simpa using h
  have hhigh : (denseFrom (o + 1) c).map (fun p => if o < p then p - 1 else p)
      = denseFrom o c := by
    have h := denseFrom_map_shift (fun p => if o < p then p - 1 else p) (-1) (o + 1) c
      fun p hp1 hp2 => by dsimp only; rw [if_pos (by omega)]; omega
    rw [h]
    congr 1
    omega
  have hR : (denseFrom 1 a ++ denseFrom (o + 1) c).map
      (fun p => if o < p then p - 1 else p) = denseFrom 1 a ++ denseFrom o c := by
    rw [List.map_append, hlow, hhigh]
  rw [hR] at hmap
  refine hmap.trans ?_
  rw [show denseRange (n - 1) = denseFrom 1 a ++ denseFrom o c from by
    rw [denseRange, show n - 1 = a + c from by omega, denseFrom_append,
      show (1 + (a : Int)) = o from by omega]]

/-! ### Glue lemmas about positions, the append slot and row remaps -/

theorem ite_upd_id (c : Prop) [Decidable c] (r : SequencePoseRow) (q : Int) :
    (if c then { r with position := q } else r).id = r.id := by
  split <;> rfl

theorem ite_upd_seq (c : Prop) [Decidable c] (r : SequencePoseRow) (q : Int) :
    (if c then { r with position := q } else r).sequence_id = r.sequence_id := by
  split <;> rfl

theorem ite_upd_pose (c : Prop) [Decidable c] (r : SequencePoseRow) (q : Int) :
    (if c then { r with position := q } else r).pose_id = r.pose_id := by
  split <;> rfl

theorem ite_upd_pv (c : Prop) [Decidable c] (r : SequencePoseRow) (q : Int) :
    (if c then { r with position := q } else r).pose_version_id = r.pose_version_id := by
  split <;> rfl

/-- Every entry of a sequence sits strictly below the append slot. -/
theorem position_lt_getNextPosition {st : Store} {sequenceId : Nat} {r : SequencePoseRow}
    (hr : r ∈ seqEntries st sequenceId) : r.position < getNextPosition st sequenceId := by
  unfold getNextPosition
  cases hmax : ((seqEntries st sequenceId).map fun r => r.position).max? with
  | none =>
      have hnil := List.max?_eq_none_iff.mp hmax
      have : r.position ∈ (seqEntries st sequenceId).map fun r => r.position :=
        List.mem_map_of_mem _ hr
      rw [hnil] at this
      simp at this
  | some m =>
      have := le_of_max?_eq_some hmax r.position (List.mem_map_of_mem _ hr)
      dsimp only
      omega

/-- On a dense sequence the append slot is `N + 1`. -/
theorem getNextPosition_of_dense {st : Store} {sequenceId : Nat} (hd : Dense st sequenceId) :
    getNextPosition st sequenceId = ((positionsOf st sequenceId).length : Int) + 1 := by
  unfold getNextPosition
  cases hmax : ((seqEntries st sequenceId).map fun r => r.position).max? with
  | none =>
      have hnil := List.max?_eq_none_iff.mp hmax
      have hlen : (positionsOf st sequenceId).length = 0 := by
        rw [positionsOf, hnil]
        rfl
      rw [hlen]
      rfl
  | some m =>
      have hmm : m ∈ positionsOf st sequenceId := mem_of_max?_eq_some hmax
      have hperm : (positionsOf st sequenceId).Perm
          (denseRange (positionsOf st sequenceId).length) := hd
      have hmd := mem_denseFrom.mp (hperm.mem_iff.mp hmm)
      have hNmem : ((positionsOf st sequenceId).length : Int)
          ∈ denseRange (positionsOf st sequenceId).length :=
        mem_denseFrom.mpr ⟨by omega, by omega⟩
      have hle := le_of_max?_eq_some hmax _ (hperm.mem_iff.mpr hNmem)
      dsimp only
      omega

theorem dense_position_bounds {st : Store} {sequenceId : Nat} {r : SequencePoseRow}
    (hd : Dense st sequenceId) (hr : r ∈ seqEntries st sequenceId) :
    1 ≤ r.position ∧ r.position ≤ ((positionsOf st sequenceId).length : Int) := by
  have hm : r.position ∈ positionsOf st sequenceId := List.mem_map_of_mem _ hr
  have := mem_denseFrom.mp (hd.mem_iff.mp hm)
  omega

theorem dense_nodup_positions {st : Store} {sequenceId : Nat} (hd : Dense st sequenceId) :
    (positionsOf st sequenceId).Nodup :=
  (hd.nodup_iff).mpr (nodup_denseFrom 1 _)

theorem fetch_after_append {rows : List SequencePoseRow} {newRow : SequencePoseRow}
    (h : ∀ r ∈ rows, r.id ≠ newRow.id) :
    (rows ++ [newRow]).find? (fun r => decide (r.id = newRow.id)) = some newRow := by
  rw [List.find?_append]
  have h1 : rows.find? (fun r => decide (r.id = newRow.id)) = none :=
    List.find?_eq_none.mpr fun x hx => by simpa using h x hx
  rw [h1]
  simp [List.find?]

/-! ### Characterisation of `addPoseToSequence` -/

/-- Successful insert with a supplied position `p <= maxPosition`: every
entry of the sequence at position `>= p` is shifted up by one (in descending
fetch order, recorded in the trace), then the new row is created at `p`. -/
theorem addPoseToSequence_some_ok (st : Store) (userId sequenceId : Nat)
    (command : AddPoseToSequenceCommand) (srow : SequenceRow) (vid : Nat) (p : Int)
    (hb : st.writeBudget = none)
    (hnd : (st.sequence_poses.map fun r => r.id).Nodup)
    (hfresh : ∀ r ∈ st.sequence_poses, r.id < st.nextId)
    (hown : verifySequenceOwnership st sequenceId userId = Except.ok srow)
    (hres : resolvePoseVersion st command.poseId command.poseVersion = Except.ok vid)
    (hp : command.position = some p)
    (hple : p ≤ getNextPosition st sequenceId) :
    addPoseToSequence st userId sequenceId command =
      (Except.ok
        { id := st.nextId, sequence_id := sequenceId, pose_id := command.poseId,
          pose_version_id := vid, position := p },
       { st with
         sequence_poses :=
           (st.sequence_poses.map fun r =>
             if r.sequence_id = sequenceId ∧ p ≤ r.position then
               { r with position := r.position + 1 }
             else r) ++
           [{ id := st.nextId, sequence_id := sequenceId, pose_id := command.poseId,
              pose_version_id := vid, position := p }],
         nextId := st.nextId + 1,
         trace := st.trace ++
           ((sortByPositionDesc ((seqEntries st sequenceId).filter fun r =>
              decide (p ≤ r.position))).map fun r => WriteOp.upd r.id (r.position + 1)) ++
           [WriteOp.ins
             { id := st.nextId, sequence_id := sequenceId, pose_id := command.poseId,
               pose_version_id := vid, position := p }] }) := by
  have hfetch : ∀ rows2 : List SequencePoseRow,
      (∀ r ∈ rows2, r.id < st.nextId) →
      ∀ newRow : SequencePoseRow, newRow.id = st.nextId →
      (rows2 ++ [newRow]).find? (fun r => decide (r.id = st.nextId)) = some newRow := by
    intro rows2 hlt newRow hid
    rw [← hid]
    exact fetch_after_append fun r hr => by
      have := hlt r hr
      omega
  simp only [addPoseToSequence, hown, hres, hp, Option.getD_some]
  rw [if_neg (by omega : ¬ p > getNextPosition st sequenceId)]
  by_cases hlt : p < getNextPosition st sequenceId
  · rw [if_pos hlt, shiftPositionsUp_ok st sequenceId p hb hnd]
    simp only [tryWrite, applyOp, hb]
    rw [fetchSequencePoseDto,
      hfetch _
        (by
          intro r hr
          obtain ⟨x, hx, hxe⟩ := List.mem_map.mp hr
          have := hfresh x hx
          rw [← hxe, ite_upd_id]
          exact this)
        _ rfl]
  · have hpe : p = getNextPosition st sequenceId := by omega
    rw [if_neg hlt]
    simp only [tryWrite, applyOp, hb]
    rw [fetchSequencePoseDto, hfetch _ hfresh _ rfl]
    have hrows : (st.sequence_poses.map fun r =>
        if r.sequence_id = sequenceId ∧ p ≤ r.position then
          { r with position := r.position + 1 }
        else r) = st.sequence_poses := by
      have h1 : ∀ r ∈ st.sequence_poses,
          (if r.sequence_id = sequenceId ∧ p ≤ r.position then
            { r with position := r.position + 1 }
          else r) = r := by
        intro r hr
        rw [if_neg]
        rintro ⟨hseq, hpos⟩
        have hmem : r ∈ seqEntries st sequenceId :=
          List.mem_filter.mpr ⟨hr, by simpa using hseq⟩
        have := position_lt_getNextPosition hmem
        omega
      rw [List.map_congr_left h1]
      exact List.map_id' st.sequence_poses
    have hflt : (seqEntries st sequenceId).filter
        (fun r => decide (p ≤ r.position)) = [] := by
      rw [List.filter_eq_nil_iff]
      intro r hr
      have := position_lt_getNextPosition hr
      simp only [decide_eq_true_eq]
      omega
    rw [hrows, hflt]
    simp [sortByPositionDesc, List.insertionSort]

/-- Successful insert with the position omitted: the new row is created at
the append slot and no existing row is written. -/
theorem addPoseToSequence_none_ok (st : Store) (userId sequenceId : Nat)
    (command : AddPoseToSequenceCommand) (srow : SequenceRow) (vid : Nat)
    (hb : st.writeBudget = none)
    (hfresh : ∀ r ∈ st.sequence_poses, r.id < st.nextId)
    (hown : verifySequenceOwnership st sequenceId userId = Except.ok srow)
    (hres : resolvePoseVersion st command.poseId command.poseVersion = Except.ok vid)
    (hp : command.position = none) :
    addPoseToSequence st userId sequenceId command =
      (Except.ok
        { id := st.nextId, sequence_id := sequenceId, pose_id := command.poseId,
          pose_version_id := vid, position := getNextPosition st sequenceId },
       { st with
         sequence_poses := st.sequence_poses ++
           [{ id := st.nextId, sequence_id := sequenceId, pose_id := command.poseId,
              pose_version_id := vid, position := getNextPosition st sequenceId }],
         nextId := st.nextId + 1,
         trace := st.trace ++
           [WriteOp.ins
             { id := st.nextId, sequence_id := sequenceId, pose_id := command.poseId,
               pose_version_id := vid, position := getNextPosition st sequenceId }] }) := by
  have hfetch : ∀ rows2 : List SequencePoseRow,
      (∀ r ∈ rows2, r.id < st.nextId) →
      ∀ newRow : SequencePoseRow, newRow.id = st.nextId →
      (rows2 ++ [newRow]).find? (fun r => decide (r.id = st.nextId)) = some newRow := by
    intro rows2 hlt newRow hid
    rw [← hid]
    exact fetch_after_append fun r hr => by
      have := hlt r hr
      omega
  simp only [addPoseToSequence, hown, hres, hp, Option.getD_none]
  rw [if_neg (by omega : ¬ getNextPosition st sequenceId > getNextPosition st sequenceId)]
  simp only [tryWrite, applyOp, hb]
  rw [fetchSequencePoseDto, hfetch _ hfresh _ rfl]

/-! ### Characterisation of `updateSequencePose` -/

theorem ite3_upd_id (c1 c2 : Prop) [Decidable c1] [Decidable c2]
    (r : SequencePoseRow) (q1 q2 : Int) :
    (if c1 then { r with position := q1 }
     else if c2 then { r with position := q2 } else r).id = r.id := by
  split
  · rfl
  · split <;> rfl

/-- A position-preserving no-op update: no supplied position, or a supplied
position equal to the current one, writes nothing and returns the entry. -/
theorem updateSequencePose_noop (st : Store) (userId sequenceId sequencePoseId : Nat)
    (command : UpdateSequencePoseCommand) (srow : SequenceRow) (target : SequencePoseRow)
    (hnd : (st.sequence_poses.map fun r => r.id).Nodup)
    (hown : verifySequenceOwnership st sequenceId userId = Except.ok srow)
    (hfind : st.sequence_poses.find?
      (fun r => decide (r.id = sequencePoseId ∧ r.sequence_id = sequenceId)) = some target)
    (hdur : command.duration = none) (hins : command.instructions = none)
    (hp : command.position = none ∨ command.position = some target.position) :
    updateSequencePose st userId sequenceId sequencePoseId command =
      (Except.ok target, st) := by
  have hfetch : st.sequence_poses.find? (fun r => decide (r.id = sequencePoseId))
      = some target := find?_by_id_of_find?_pair hnd hfind
  simp only [updateSequencePose, hown, hfind, hdur, hins, Option.isSome_none,
    Bool.or_self, Bool.false_eq_true, if_false]
  rcases hp with hp | hp
  · simp only [hp]
    simp only [fetchSequencePoseDto, hfetch]
  · simp only [hp, if_true]
    simp only [fetchSequencePoseDto, hfetch]

/-- Successful move to a later position `j` (with `oldPosition < j <
maxPosition`): the rows strictly between the old and new position are
decremented (fetched in ascending order), then the entry is set to `j`. -/
theorem updateSequencePose_later_ok (st : Store) (userId sequenceId sequencePoseId : Nat)
    (command : UpdateSequencePoseCommand) (srow : SequenceRow)
    (target : SequencePoseRow) (j : Int)
    (hb : st.writeBudget = none)
    (hnd : (st.sequence_poses.map fun r => r.id).Nodup)
    (hown : verifySequenceOwnership st sequenceId userId = Except.ok srow)
    (hfind : st.sequence_poses.find?
      (fun r => decide (r.id = sequencePoseId ∧ r.sequence_id = sequenceId)) = some target)
    (hdur : command.duration = none) (hins : command.instructions = none)
    (hp : command.position = some j)
    (hj1 : 1 ≤ j) (hlt : target.position < j) (hjmax : j < getNextPosition st sequenceId) :
    updateSequencePose st userId sequenceId sequencePoseId command =
      (Except.ok { target with position := j },
       { st with
         sequence_poses := st.sequence_poses.map fun r =>
           if r.id = sequencePoseId then { r with position := j }
           else if r.sequence_id = sequenceId ∧
               target.position < r.position ∧ r.position ≤ j then
             { r with position := r.position - 1 }
           else r,
         trace := st.trace ++
           ((sortByPositionAsc ((seqEntries st sequenceId).filter fun r =>
             decide (target.position < r.position ∧ r.position ≤ j))).map
             fun r => WriteOp.upd r.id (r.position - 1)) ++
           [WriteOp.upd sequencePoseId j] }) := by
  have htprop : target.id = sequencePoseId ∧ target.sequence_id = sequenceId := by
    simpa using List.find?_some hfind
  have htmem : target ∈ st.sequence_poses := List.mem_of_find?_eq_some hfind
  have hfetch0 : st.sequence_poses.find? (fun r => decide (r.id = sequencePoseId))
      = some target := find?_by_id_of_find?_pair hnd hfind
  simp only [updateSequencePose, hown, hfind, hdur, hins, hp, Option.isSome_none,
    Bool.or_self, Bool.false_eq_true, if_false]
  rw [if_neg (by omega : ¬ j = target.position),
    if_neg (by omega : ¬ (j < 1 ∨ getNextPosition st sequenceId ≤ j)),
    if_pos hlt, runUpdates_ok _ _ hb]
  have hL : (seqEntries st sequenceId).filter
      (fun r => decide (target.position < r.position ∧ r.position ≤ j))
      = st.sequence_poses.filter fun r =>
          decide (r.sequence_id = sequenceId ∧
            target.position < r.position ∧ r.position ≤ j) := by
    simp only [seqEntries, List.filter_filter]
    exact List.filter_congr fun x _ => by
      by_cases h1 : target.position < x.position ∧ x.position ≤ j <;>
        by_cases h2 : x.sequence_id = sequenceId <;> simp [h1, h2]
  have hmap := applyUpdList_sorted_filter st.sequence_poses
    (fun r => r.sequence_id = sequenceId ∧ target.position < r.position ∧ r.position ≤ j)
    (fun p => p - 1)
    (sortByPositionAsc ((seqEntries st sequenceId).filter fun r =>
      decide (target.position < r.position ∧ r.position ≤ j)))
    (by rw [hL] at *; exact List.perm_insertionSort _ _) hnd
  rw [hmap]
  dsimp only
  rw [if_neg (by omega : ¬ j < target.position)]
  simp only [tryWrite, applyOp, hb]
  have hcomp : ((st.sequence_poses.map fun r =>
      if r.sequence_id = sequenceId ∧ target.position < r.position ∧ r.position ≤ j then
        { r with position := r.position - 1 }
      else r).map fun r =>
        if r.id = sequencePoseId then { r with position := j } else r)
      = st.sequence_poses.map fun r =>
          if r.id = sequencePoseId then { r with position := j }
          else if r.sequence_id = sequenceId ∧
              target.position < r.position ∧ r.position ≤ j then
            { r with position := r.position - 1 }
          else r := by
    rw [List.map_map]
    apply List.map_congr_left
    intro r hr
    by_cases hid : r.id = sequencePoseId
    · have hrt : r = target :=
        List.inj_on_of_nodup_map hnd hr htmem (by rw [hid, htprop.1])
      simp only [Function.comp_apply]
      rw [if_neg (show ¬(r.sequence_id = sequenceId ∧ target.position < r.position ∧
          r.position ≤ j) from by rw [hrt]; rintro ⟨hc1, hc2, hc3⟩; omega),
        if_pos hid]
    · simp only [Function.comp_apply]
      rw [if_neg (show ¬((if r.sequence_id = sequenceId ∧ target.position < r.position ∧
            r.position ≤ j then { r with position := r.position - 1 } else r).id
            = sequencePoseId) from by rw [ite_upd_id]; exact hid),
        if_neg hid]
  rw [hcomp]
  have hfetch : (st.sequence_poses.map fun r =>
      if r.id = sequencePoseId then { r with position := j }
      else if r.sequence_id = sequenceId ∧
          target.position < r.position ∧ r.position ≤ j then
        { r with position := r.position - 1 }
      else r).find? (fun r => decide (r.id = sequencePoseId))
      = some { target with position := j } := by
    rw [find?_map_pres _ _ _ (fun x => by rw [ite3_upd_id]), hfetch0]
    simp [htprop.1]
  rw [fetchSequencePoseDto, hfetch]
  simp [List.append_assoc]

/-- Successful move to an earlier position `j` (with `1 <= j < oldPosition`):
the rows from `j` up to just below the old position are incremented (fetched
in descending order), then the entry is set to `j`. -/
theorem updateSequencePose_earlier_ok (st : Store) (userId sequenceId sequencePoseId : Nat)
    (command : UpdateSequencePoseCommand) (srow : SequenceRow)
    (target : SequencePoseRow) (j : Int)
    (hb : st.writeBudget = none)
    (hnd : (st.sequence_poses.map fun r => r.id).Nodup)
    (hown : verifySequenceOwnership st sequenceId userId = Except.ok srow)
    (hfind : st.sequence_poses.find?
      (fun r => decide (r.id = sequencePoseId ∧ r.sequence_id = sequenceId)) = some target)
    (hdur : command.duration = none) (hins : command.instructions = none)
    (hp : command.position = some j)
    (hj1 : 1 ≤ j) (hgt : j < target.position)
    (hjmax : j < getNextPosition st sequenceId) :
    updateSequencePose st userId sequenceId sequencePoseId command =
      (Except.ok { target with position := j },
       { st with
         sequence_poses := st.sequence_poses.map fun r =>
           if r.id = sequencePoseId then { r with position := j }
           else if r.sequence_id = sequenceId ∧
               j ≤ r.position ∧ r.position < target.position then
             { r with position := r.position + 1 }
           else r,
         trace := st.trace ++
           ((sortByPositionDesc ((seqEntries st sequenceId).filter fun r =>
             decide (j ≤ r.position ∧ r.position < target.position))).map
             fun r => WriteOp.upd r.id (r.position + 1)) ++
           [WriteOp.upd sequencePoseId j] }) := by
  have htprop : target.id = sequencePoseId ∧ target.sequence_id = sequenceId := by
    simpa using List.find?_some hfind
  have htmem : target ∈ st.sequence_poses := List.mem_of_find?_eq_some hfind
  have hfetch0 : st.sequence_poses.find? (fun r => decide (r.id = sequencePoseId))
      = some target := find?_by_id_of_find?_pair hnd hfind
  simp only [updateSequencePose, hown, hfind, hdur, hins, hp, Option.isSome_none,
    Bool.or_self, Bool.false_eq_true, if_false]
  rw [if_neg (by omega : ¬ j = target.position),
    if_neg (by omega : ¬ (j < 1 ∨ getNextPosition st sequenceId ≤ j)),
    if_neg (by omega : ¬ target.position < j)]
  dsimp only
  rw [if_pos hgt, runUpdates_ok _ _ hb]
  have hL : (seqEntries st sequenceId).filter
      (fun r => decide (j ≤ r.position ∧ r.position < target.position))
      = st.sequence_poses.filter fun r =>
          decide (r.sequence_id = sequenceId ∧
            j ≤ r.position ∧ r.position < target.position) := by
    simp only [seqEntries, List.filter_filter]
    exact List.filter_congr fun x _ => by
      by_cases h1 : j ≤ x.position ∧ x.position < target.position <;>
        by_cases h2 : x.sequence_id = sequenceId <;> simp [h1, h2]
  have hmap := applyUpdList_sorted_filter st.sequence_poses
    (fun r => r.sequence_id = sequenceId ∧ j ≤ r.position ∧ r.position < target.position)
    (fun p => p + 1)
    (sortByPositionDesc ((seqEntries st sequenceId).filter fun r =>
      decide (j ≤ r.position ∧ r.position < target.position)))
    (by rw [hL] at *; exact List.perm_insertionSort _ _) hnd
  rw [hmap]
  dsimp only
  simp only [tryWrite, applyOp, hb]
  have hcomp : ((st.sequence_poses.map fun r =>
      if r.sequence_id = sequenceId ∧ j ≤ r.position ∧ r.position < target.position then
        { r with position := r.position + 1 }
      else r).map fun r =>
        if r.id = sequencePoseId then { r with position := j } else r)
      = st.sequence_poses.map fun r =>
          if r.id = sequencePoseId then { r with position := j }
          else if r.sequence_id = sequenceId ∧
              j ≤ r.position ∧ r.position < target.position then
            { r with position := r.position + 1 }
          else r := by
    rw [List.map_map]
    apply List.map_congr_left
    intro r hr
    by_cases hid : r.id = sequencePoseId
    · have hrt : r = target :=
        List.inj_on_of_nodup_map hnd hr htmem (by rw [hid, htprop.1])
      simp only [Function.comp_apply]
      rw [if_neg (show ¬(r.sequence_id = sequenceId ∧ j ≤ r.position ∧
          r.position < target.position) from by rw [hrt]; rintro ⟨hc1, hc2, hc3⟩; omega),
        if_pos hid]
    · simp only [Function.comp_apply]
      rw [if_neg (show ¬((if r.sequence_id = sequenceId ∧ j ≤ r.position ∧
            r.position < target.position then { r with position := r.position + 1 }
            else r).id = sequencePoseId) from by rw [ite_upd_id]; exact hid),
        if_neg hid]
  rw [hcomp]
  have hfetch : (st.sequence_poses.map fun r =>
      if r.id = sequencePoseId then { r with position := j }
      else if r.sequence_id = sequenceId ∧
          j ≤ r.position ∧ r.position < target.position then
        { r with position := r.position + 1 }
      else r).find? (fun r => decide (r.id = sequencePoseId))
      = some { target with position := j } := by
    rw [find?_map_pres _ _ _ (fun x => by rw [ite3_upd_id]), hfetch0]
    simp [htprop.1]
  rw [fetchSequencePoseDto, hfetch]
  simp [List.append_assoc]

/-! ### Characterisation of `removeSequencePose` -/

/-- Successful remove: the entry is deleted, then every row of the sequence
after the deleted position is decremented (fetched in ascending order). -/
theorem removeSequencePose_ok (st : Store) (userId sequenceId sequencePoseId : Nat)
    (srow : SequenceRow) (target : SequencePoseRow)
    (hb : st.writeBudget = none)
    (hnd : (st.sequence_poses.map fun r => r.id).Nodup)
    (hown : verifySequenceOwnership st sequenceId userId = Except.ok srow)
    (hfind : st.sequence_poses.find?
      (fun r => decide (r.id = sequencePoseId ∧ r.sequence_id = sequenceId)) = some target) :
    removeSequencePose st userId sequenceId sequencePoseId =
      (Except.ok (),
       { st with
         sequence_poses :=
           (st.sequence_poses.filter fun r => decide (r.id ≠ sequencePoseId)).map
             fun r =>
               if r.sequence_id = sequenceId ∧ target.position < r.position then
                 { r with position := r.position - 1 }
               else r,
         trace := st.trace ++ [WriteOp.del sequencePoseId] ++
           (sortByPositionAsc
             (((st.sequence_poses.filter fun r => decide (r.id ≠ sequencePoseId)).filter
               fun r => decide (r.sequence_id = sequenceId)).filter fun r =>
                 decide (target.position < r.position))).map
             fun r => WriteOp.upd r.id (r.position - 1) }) := by
  simp only [removeSequencePose, hown, hfind]
  simp only [tryWrite, applyOp, hb]
  rw [shiftPositionsDown_ok _ _ _ (by simp [hb])
    (hnd.sublist ((List.filter_sublist _).map _))]
  simp [seqEntries, List.append_assoc]

/-! ### Errors other than store faults are raised before any write -/

theorem map_id_of_ite (rows : List SequencePoseRow) (c : SequencePoseRow → Prop)
    [DecidablePred c] (g : SequencePoseRow → Int) :
    ((rows.map fun r => if c r then { r with position := g r } else r).map
      fun r => r.id) = rows.map fun r => r.id := by
  rw [List.map_map]
  exact List.map_congr_left fun r _ => by
    simp only [Function.comp_apply]
    split <;> rfl

/-- The update loop only changes positions: row ids are untouched whatever
the write budget. -/
theorem runUpdates_ids (ws : List (Nat × Int)) (st : Store) :
    (((runUpdates st ws).2).sequence_poses.map fun r => r.id)
      = st.sequence_poses.map fun r => r.id := by
  induction ws generalizing st with
  | nil => rfl
  | cons w ws ih =>
      rw [runUpdates, tryWrite]
      cases hb : st.writeBudget with
      | none =>
          dsimp only
          rw [ih]
          exact map_id_of_ite st.sequence_poses (fun r => r.id = w.1) fun _ => w.2
      | some k =>
          cases k with
          | zero => rfl
          | succ k =>
              dsimp only
              rw [ih]
              exact map_id_of_ite st.sequence_poses (fun r => r.id = w.1) fun _ => w.2

/-- The update loop can only fail with a store-level write fault. -/
theorem runUpdates_error_store (ws : List (Nat × Int)) (st : Store) :
    ∀ e st2, runUpdates st ws = (Except.error e, st2) → e = Err.STORE_WRITE_FAILED := by
  induction ws generalizing st with
  | nil =>
      intro e st2 h
      rw [runUpdates] at h
      exact absurd h (by simp)
  | cons w ws ih =>
      intro e st2 h
      rw [runUpdates, tryWrite] at h
      cases hb : st.writeBudget with
      | none =>
          rw [hb] at h
          exact ih _ e st2 h
      | some k =>
          rw [hb] at h
          cases k with
          | zero =>
              injection h with h1 h2
              injection h1 with h1
              exact h1.symm
          | succ k => exact ih _ e st2 h

/-- A row with a given id survives the update loop. -/
theorem runUpdates_find?_isSome (ws : List (Nat × Int)) (st : Store) (i : Nat)
    (h : (st.sequence_poses.find? fun r => decide (r.id = i)).isSome) :
    ((((runUpdates st ws).2).sequence_poses.find? fun r => decide (r.id = i)).isSome) := by
  rw [List.find?_isSome] at h ⊢
  obtain ⟨x, hx, hxp⟩ := h
  have hid : x.id ∈ st.sequence_poses.map fun r => r.id := List.mem_map_of_mem _ hx
  rw [← runUpdates_ids ws st] at hid
  obtain ⟨y, hy, hye⟩ := List.mem_map.mp hid
  exact ⟨y, hy, by rw [hye]; exact hxp⟩

theorem find?_append_self_isSome (rows : List SequencePoseRow) (newRow : SequencePoseRow) :
    ((rows ++ [newRow]).find? fun r => decide (r.id = newRow.id)).isSome := by
  rw [List.find?_append]
  cases hfind : rows.find? fun r => decide (r.id = newRow.id) with
  | some x => rfl
  | none => simp [List.find?]

/-- Whatever the write budget, `addPoseToSequence` returns a non-store-fault
error only before its first write: the store is unchanged. -/
theorem addPoseToSequence_failfast (st : Store) (userId sequenceId : Nat)
    (command : AddPoseToSequenceCommand) (e : Err) (st2 : Store)
    (he : e ≠ Err.STORE_WRITE_FAILED)
    (h : addPoseToSequence st userId sequenceId command = (Except.error e, st2)) :
    st2 = st := by
  have htail : ∀ st1 : Store, ∀ newRow : SequencePoseRow,
      (match tryWrite st1 (WriteOp.ins newRow) with
       | (Except.error e1, stx) => ((Except.error e1 : Except Err SequencePoseRow), stx)
       | (Except.ok _, stx) =>
           match fetchSequencePoseDto stx newRow.id with
           | Except.error e1 => (Except.error e1, stx)
           | Except.ok row => (Except.ok row, stx)) = (Except.error e, st2) → False := by
    intro st1 newRow hc
    rw [tryWrite] at hc
    have hok : ∀ stx : Store,
        stx.sequence_poses = st1.sequence_poses ++ [newRow] →
        (match fetchSequencePoseDto stx newRow.id with
         | Except.error e1 => ((Except.error e1 : Except Err SequencePoseRow), stx)
         | Except.ok row => (Except.ok row, stx)) = (Except.error e, st2) → False := by
      intro stx hrows hcc
      have hsome := find?_append_self_isSome st1.sequence_poses newRow
      rw [← hrows] at hsome
      obtain ⟨row, hrow⟩ := Option.isSome_iff_exists.mp hsome
      rw [fetchSequencePoseDto, hrow] at hcc
      dsimp only at hcc
      injection hcc with h1 h2
      exact Except.noConfusion h1
    cases hb : st1.writeBudget with
    | none =>
        rw [hb] at hc
        dsimp only at hc
        exact hok _ (by simp [applyOp]) hc
    | some k =>
        rw [hb] at hc
        cases k with
        | zero =>
            dsimp only at hc
            injection hc with h1 h2
            injection h1 with h1
            exact he h1.symm
        | succ k =>
            dsimp only at hc
            exact hok _ (by simp [applyOp]) hc
  rw [addPoseToSequence] at h
  cases hv : verifySequenceOwnership st sequenceId userId with
  | error e1 =>
      rw [hv] at h
      dsimp only at h
      injection h with h1 h2
      exact h2.symm
  | ok srow =>
      rw [hv] at h
      dsimp only at h
      cases hr : resolvePoseVersion st command.poseId command.poseVersion with
      | error e1 =>
          rw [hr] at h
          dsimp only at h
          injection h with h1 h2
          exact h2.symm
      | ok vid =>
          rw [hr] at h
          dsimp only at h
          by_cases hgt : command.position.getD (getNextPosition st sequenceId) >
              getNextPosition st sequenceId
          · rw [if_pos hgt] at h
            injection h with h1 h2
            exact h2.symm
          · rw [if_neg hgt] at h
            cases hp : command.position with
            | none =>
                rw [hp] at h
                dsimp only at h
                exact absurd h (fun hc => htail _ _ hc)
            | some p =>
                rw [hp] at h
                dsimp only at h
                by_cases hplt : p < getNextPosition st sequenceId
                · rw [if_pos hplt] at h
                  rcases hsh : shiftPositionsUp st sequenceId p with ⟨sres, st1⟩
                  rw [hsh] at h
                  cases sres with
                  | error e1 =>
                      dsimp only at h
                      have he1 : e1 = Err.STORE_WRITE_FAILED := by
                        rw [shiftPositionsUp] at hsh
                        exact runUpdates_error_store _ _ e1 st1 hsh
                      injection h with h1 h2
                      injection h1 with h1
                      exact absurd (h1 ▸ he1) he
                  | ok u =>
                      dsimp only at h
                      exact absurd h (fun hc => htail _ _ hc)
                · rw [if_neg hplt] at h
                  dsimp only at h
                  exact absurd h (fun hc => htail _ _ hc)

theorem tryWrite_error_store {st : Store} {op : WriteOp} {e : Err} {st2 : Store}
    (h : tryWrite st op = (Except.error e, st2)) :
    e = Err.STORE_WRITE_FAILED ∧ st2 = st := by
  rw [tryWrite] at h
  cases hb : st.writeBudget with
  | none =>
      rw [hb] at h
      exact absurd h (by simp)
  | some k =>
      rw [hb] at h
      cases k with
      | zero =>
          injection h with h1 h2
          injection h1 with h1
          exact ⟨h1.symm, h2.symm⟩
      | succ k => exact absurd h (by simp)

theorem tryWrite_upd_ok_ids {st : Store} {w1 : Nat} {w2 : Int} {u : Unit} {st2 : Store}
    (h : tryWrite st (WriteOp.upd w1 w2) = (Except.ok u, st2)) :
    st2.sequence_poses.map (fun r => r.id) = st.sequence_poses.map fun r => r.id := by
  rw [tryWrite] at h
  cases hb : st.writeBudget with
  | none =>
      rw [hb] at h
      injection h with h1 h2
      rw [← h2]
      exact map_id_of_ite st.sequence_poses (fun r => r.id = w1) fun _ => w2
  | some k =>
      rw [hb] at h
      cases k with
      | zero => exact absurd h (by simp)
      | succ k =>
          injection h with h1 h2
          rw [← h2]
          exact map_id_of_ite st.sequence_poses (fun r => r.id = w1) fun _ => w2

theorem runUpdates_ok_ids {ws : List (Nat × Int)} {st : Store} {u : Unit} {st2 : Store}
    (h : runUpdates st ws = (Except.ok u, st2)) :
    st2.sequence_poses.map (fun r => r.id) = st.sequence_poses.map fun r => r.id := by
  have h2 : (runUpdates st ws).2 = st2 := by rw [h]
  rw [← h2]
  exact runUpdates_ids ws st

/-- Whatever the write budget, `updateSequencePose` returns a non-store-fault
error only before its first write: the store is unchanged. -/
theorem updateSequencePose_failfast (st : Store) (userId sequenceId sequencePoseId : Nat)
    (command : UpdateSequencePoseCommand) (e : Err) (st2 : Store)
    (he : e ≠ Err.STORE_WRITE_FAILED)
    (h : updateSequencePose st userId sequenceId sequencePoseId command
      = (Except.error e, st2)) : st2 = st := by
  rw [updateSequencePose] at h
  cases hv : verifySequenceOwnership st sequenceId userId with
  | error e1 =>
      rw [hv] at h
      dsimp only at h
      injection h with h1 h2
      exact h2.symm
  | ok srow =>
    rw [hv] at h
    dsimp only at h
    cases hf : st.sequence_poses.find?
        (fun r => decide (r.id = sequencePoseId ∧ r.sequence_id = sequenceId)) with
    | none =>
        rw [hf] at h
        dsimp only at h
        injection h with h1 h2
        exact h2.symm
    | some target =>
      rw [hf] at h
      dsimp only at h
      by_cases hd : command.duration.isSome || command.instructions.isSome
      · rw [if_pos hd] at h
        injection h with h1 h2
        exact h2.symm
      · rw [if_neg hd] at h
        have hsome0 : (st.sequence_poses.find? fun r =>
            decide (r.id = sequencePoseId)).isSome := by
          rw [List.find?_isSome]
          refine ⟨target, List.mem_of_find?_eq_some hf, ?_⟩
          have hts := List.find?_some hf
          simp only [decide_eq_true_eq] at hts
          simp [hts.1]
        have htail : ∀ stm : Store,
            ((stm.sequence_poses.find? fun r => decide (r.id = sequencePoseId)).isSome) →
            (match fetchSequencePoseDto stm sequencePoseId with
             | Except.error e1 => ((Except.error e1 : Except Err SequencePoseRow), stm)
             | Except.ok row => (Except.ok row, stm)) = (Except.error e, st2) → False := by
          intro stm hsome hc
          obtain ⟨row, hrow⟩ := Option.isSome_iff_exists.mp hsome
          rw [fetchSequencePoseDto, hrow] at hc
          dsimp only at hc
          injection hc with h1 h2
          exact Except.noConfusion h1
        have hsame : ∀ stm : Store,
            stm.sequence_poses.map (fun r => r.id)
              = st.sequence_poses.map (fun r => r.id) →
            ((stm.sequence_poses.find? fun r => decide (r.id = sequencePoseId)).isSome) := by
          intro stm hids
          rw [List.find?_isSome] at hsome0 ⊢
          obtain ⟨x, hx, hxp⟩ := hsome0
          have hid : x.id ∈ st.sequence_poses.map fun r => r.id := List.mem_map_of_mem _ hx
          rw [← hids] at hid
          obtain ⟨y, hy, hye⟩ := List.mem_map.mp hid
          exact ⟨y, hy, by rw [hye]; exact hxp⟩
        cases hp : command.position with
        | none =>
            rw [hp] at h
            dsimp only at h
            exact absurd h fun hc => htail st hsome0 hc
        | some j =>
            rw [hp] at h
            dsimp only at h
            by_cases hj : j = target.position
            · rw [if_pos hj] at h
              dsimp only at h
              exact absurd h fun hc => htail st hsome0 hc
            · rw [if_neg hj] at h
              by_cases hinv : j < 1 ∨ getNextPosition st sequenceId ≤ j
              · rw [if_pos hinv] at h
                dsimp only at h
                injection h with h1 h2
                exact h2.symm
              · rw [if_neg hinv] at h
                by_cases hdir : target.position < j
                · rw [if_pos hdir] at h
                  rcases h1eq : runUpdates st
                      ((sortByPositionAsc ((seqEntries st sequenceId).filter fun r =>
                        decide (target.position < r.position ∧ r.position ≤ j))).map
                        fun r => (r.id, r.position - 1)) with ⟨r1, s1⟩
                  rw [h1eq] at h
                  cases r1 with
                  | error e1 =>
                      dsimp only at h
                      injection h with h1 h2
                      injection h1 with h1
                      exact absurd (h1 ▸ runUpdates_error_store _ _ _ _ h1eq) he
                  | ok u1 =>
                      dsimp only at h
                      rw [if_neg (by omega : ¬ j < target.position)] at h
                      dsimp only at h
                      rcases h2eq : tryWrite s1 (WriteOp.upd sequencePoseId j) with ⟨r2, s2⟩
                      rw [h2eq] at h
                      cases r2 with
                      | error e2 =>
                          dsimp only at h
                          injection h with h1 h2
                          injection h1 with h1
                          exact absurd (h1 ▸ (tryWrite_error_store h2eq).1) he
                      | ok u2 =>
                          dsimp only at h
                          refine absurd h fun hc => htail s2 (hsame s2 ?_) hc
                          rw [tryWrite_upd_ok_ids h2eq, runUpdates_ok_ids h1eq]
                · rw [if_neg hdir] at h
                  dsimp only at h
                  rw [if_pos (by omega : j < target.position)] at h
                  rcases h1eq : runUpdates st
                      ((sortByPositionDesc ((seqEntries st sequenceId).filter fun r =>
                        decide (j ≤ r.position ∧ r.position < target.position))).map
                        fun r => (r.id, r.position + 1)) with ⟨r1, s1⟩
                  rw [h1eq] at h
                  cases r1 with
                  | error e1 =>
                      dsimp only at h
                      injection h with h1 h2
                      injection h1 with h1
                      exact absurd (h1 ▸ runUpdates_error_store _ _ _ _ h1eq) he
                  | ok u1 =>
                      dsimp only at h
                      rcases h2eq : tryWrite s1 (WriteOp.upd sequencePoseId j) with ⟨r2, s2⟩
                      rw [h2eq] at h
                      cases r2 with
                      | error e2 =>
                          dsimp only at h
                          injection h with h1 h2
                          injection h1 with h1
                          exact absurd (h1 ▸ (tryWrite_error_store h2eq).1) he
                      | ok u2 =>
                          dsimp only at h
                          refine absurd h fun hc => htail s2 (hsame s2 ?_) hc
                          rw [tryWrite_upd_ok_ids h2eq, runUpdates_ok_ids h1eq]

/-- Whatever the write budget, `removeSequencePose` returns a non-store-fault
error only before its first write: the store is unchanged. -/
theorem removeSequencePose_failfast (st : Store) (userId sequenceId sequencePoseId : Nat)
    (e : Err) (st2 : Store)
    (he : e ≠ Err.STORE_WRITE_FAILED)
    (h : removeSequencePose st userId sequenceId sequencePoseId = (Except.error e, st2)) :
    st2 = st := by
  rw [removeSequencePose] at h
  cases hv : verifySequenceOwnership st sequenceId userId with
  | error e1 =>
      rw [hv] at h
      dsimp only at h
      injection h with h1 h2
      exact h2.symm
  | ok srow =>
    rw [hv] at h
    dsimp only at h
    cases hf : st.sequence_poses.find?
        (fun r => decide (r.id = sequencePoseId ∧ r.sequence_id = sequenceId)) with
    | none =>
        rw [hf] at h
        dsimp only at h
        injection h with h1 h2
        exact h2.symm
    | some target =>
      rw [hf] at h
      dsimp only at h
      rcases h1eq : tryWrite st (WriteOp.del sequencePoseId) with ⟨r1, s1⟩
      rw [h1eq] at h
      cases r1 with
      | error e1 =>
          dsimp only at h
          injection h with h1 h2
          injection h1 with h1
          exact absurd (h1 ▸ (tryWrite_error_store h1eq).1) he
      | ok u1 =>
          dsimp only at h
          rw [shiftPositionsDown] at h
          exact absurd (runUpdates_error_store _ _ _ _ h) he

/-! ### Error-raising helpers -/

theorem verifySequenceOwnership_not_found {st : Store} {sequenceId userId : Nat}
    (h : ∀ r ∈ st.sequences, ¬(r.id = sequenceId ∧ r.user_id = userId)) :
    verifySequenceOwnership st sequenceId userId = Except.error Err.SEQUENCE_NOT_FOUND := by
  rw [verifySequenceOwnership,
    List.find?_eq_none.mpr fun x hx => by simpa using h x hx]

theorem addPoseToSequence_own_error {st : Store} {userId sequenceId : Nat}
    {command : AddPoseToSequenceCommand} {e : Err}
    (h : verifySequenceOwnership st sequenceId userId = Except.error e) :
    addPoseToSequence st userId sequenceId command = (Except.error e, st) := by
  rw [addPoseToSequence, h]

theorem updateSequencePose_own_error {st : Store} {userId sequenceId sequencePoseId : Nat}
    {command : UpdateSequencePoseCommand} {e : Err}
    (h : verifySequenceOwnership st sequenceId userId = Except.error e) :
    updateSequencePose st userId sequenceId sequencePoseId command = (Except.error e, st) := by
  rw [updateSequencePose, h]

theorem removeSequencePose_own_error {st : Store} {userId sequenceId sequencePoseId : Nat}
    {e : Err} (h : verifySequenceOwnership st sequenceId userId = Except.error e) :
    removeSequencePose st userId sequenceId sequencePoseId = (Except.error e, st) := by
  rw [removeSequencePose, h]

/-- Insert rejects a supplied position strictly above the append slot,
before any write. -/
theorem addPoseToSequence_invalid {st : Store} {userId sequenceId : Nat}
    {command : AddPoseToSequenceCommand} {srow : SequenceRow} {vid : Nat} {p : Int}
    (hown : verifySequenceOwnership st sequenceId userId = Except.ok srow)
    (hres : resolvePoseVersion st command.poseId command.poseVersion = Except.ok vid)
    (hp : command.position = some p)
    (hgt : p > getNextPosition st sequenceId) :
    addPoseToSequence st userId sequenceId command =
      (Except.error Err.INVALID_POSITION, st) := by
  simp only [addPoseToSequence, hown, hres, hp, Option.getD_some]
  rw [if_pos hgt]

/-- Move rejects a changed position outside `[1, maxPosition)`, before any
write. -/
theorem updateSequencePose_invalid {st : Store} {userId sequenceId sequencePoseId : Nat}
    {command : UpdateSequencePoseCommand} {srow : SequenceRow}
    {target : SequencePoseRow} {j : Int}
    (hown : verifySequenceOwnership st sequenceId userId = Except.ok srow)
    (hfind : st.sequence_poses.find?
      (fun r => decide (r.id = sequencePoseId ∧ r.sequence_id = sequenceId)) = some target)
    (hdur : command.duration = none) (hins : command.instructions = none)
    (hp : command.position = some j)
    (hj : j ≠ target.position)
    (hinv : j < 1 ∨ getNextPosition st sequenceId ≤ j) :
    updateSequencePose st userId sequenceId sequencePoseId command =
      (Except.error Err.INVALID_POSITION, st) := by
  simp only [updateSequencePose, hown, hfind, hdur, hins, hp, Option.isSome_none,
    Bool.or_self, Bool.false_eq_true, if_false]
  rw [if_neg hj, if_pos hinv]

/-- Requests carrying `duration` or `instructions` are rejected with the
distinct not-supported signal, before any write. -/
theorem updateSequencePose_not_supported {st : Store}
    {userId sequenceId sequencePoseId : Nat} {command : UpdateSequencePoseCommand}
    {srow : SequenceRow} {target : SequencePoseRow}
    (hown : verifySequenceOwnership st sequenceId userId = Except.ok srow)
    (hfind : st.sequence_poses.find?
      (fun r => decide (r.id = sequencePoseId ∧ r.sequence_id = sequenceId)) = some target)
    (hd : command.duration.isSome || command.instructions.isSome) :
    updateSequencePose st userId sequenceId sequencePoseId command =
      (Except.error Err.DURATION_AND_INSTRUCTIONS_NOT_SUPPORTED, st) := by
  simp only [updateSequencePose, hown, hfind]
  rw [if_pos hd]

/-! ### Frame machinery: only positions are ever rewritten -/

/-- Two rows agreeing on everything except possibly `position`. -/
def SameRowCore (r2 r : SequencePoseRow) : Prop :=
  r2.id = r.id ∧ r2.sequence_id = r.sequence_id ∧ r2.pose_id = r.pose_id ∧
    r2.pose_version_id = r.pose_version_id

/-- Every row of `rows2` descends from a row of `rows` with only its
position changed. -/
def RowsFrom (rows2 rows : List SequencePoseRow) : Prop :=
  ∀ r2 ∈ rows2, ∃ r ∈ rows, SameRowCore r2 r

theorem SameRowCore_refl (r : SequencePoseRow) : SameRowCore r r :=
  ⟨rfl, rfl, rfl, rfl⟩

theorem RowsFrom_refl (rows : List SequencePoseRow) : RowsFrom rows rows :=
  fun r hr => ⟨r, hr, SameRowCore_refl r⟩

theorem RowsFrom_trans {a b c : List SequencePoseRow}
    (h1 : RowsFrom a b) (h2 : RowsFrom b c) : RowsFrom a c := by
  intro r2 hr2
  obtain ⟨r1, hr1, hc1⟩ := h1 r2 hr2
  obtain ⟨r0, hr0, hc0⟩ := h2 r1 hr1
  exact ⟨r0, hr0, hc1.1.trans hc0.1, hc1.2.1.trans hc0.2.1,
    hc1.2.2.1.trans hc0.2.2.1, hc1.2.2.2.trans hc0.2.2.2⟩

theorem RowsFrom_map_ite (rows : List SequencePoseRow) (c : SequencePoseRow → Prop)
    [DecidablePred c] (g : SequencePoseRow → Int) :
    RowsFrom (rows.map fun r => if c r then { r with position := g r } else r) rows := by
  intro r2 hr2
  obtain ⟨r, hr, hre⟩ := List.mem_map.mp hr2
  refine ⟨r, hr, ?_⟩
  rw [← hre]
  split
  · exact ⟨rfl, rfl, rfl, rfl⟩
  · exact SameRowCore_refl r

theorem RowsFrom_filter (p : SequencePoseRow → Bool) (rows : List SequencePoseRow) :
    RowsFrom (rows.filter p) rows :=
  fun r hr => ⟨r, List.mem_of_mem_filter hr, SameRowCore_refl r⟩

theorem tryWrite_upd_rowsFrom (st : Store) (w1 : Nat) (w2 : Int) :
    RowsFrom (((tryWrite st (WriteOp.upd w1 w2)).2).sequence_poses) st.sequence_poses := by
  rw [tryWrite]
  cases hb : st.writeBudget with
  | none =>
      dsimp only
      exact RowsFrom_map_ite st.sequence_poses (fun r => r.id = w1) fun _ => w2
  | some k =>
      cases k with
      | zero => exact RowsFrom_refl _
      | succ k =>
          dsimp only
          exact RowsFrom_map_ite st.sequence_poses (fun r => r.id = w1) fun _ => w2

theorem runUpdates_rowsFrom (ws : List (Nat × Int)) (st : Store) :
    RowsFrom (((runUpdates st ws).2).sequence_poses) st.sequence_poses := by
  induction ws generalizing st with
  | nil => exact RowsFrom_refl _
  | cons w ws ih =>
      rw [runUpdates, tryWrite]
      cases hb : st.writeBudget with
      | none =>
          dsimp only
          refine RowsFrom_trans (ih _) ?_
          exact RowsFrom_map_ite st.sequence_poses (fun r => r.id = w.1) fun _ => w.2
      | some k =>
          cases k with
          | zero => exact RowsFrom_refl _
          | succ k =>
              dsimp only
              refine RowsFrom_trans (ih _) ?_
              exact RowsFrom_map_ite st.sequence_poses (fun r => r.id = w.1) fun _ => w.2

theorem fetch_branch_snd (stm : Store) (i : Nat) :
    (match fetchSequencePoseDto stm i with
     | Except.error e1 => ((Except.error e1 : Except Err SequencePoseRow), stm)
     | Except.ok row => (Except.ok row, stm)).2 = stm := by
  cases fetchSequencePoseDto stm i <;> rfl

/-- Move never touches any field but `position`, whatever its outcome:
every row of the resulting store descends from an input row with the same
id, sequence, pose and pose version. -/
theorem updateSequencePose_rowsFrom (st : Store) (userId sequenceId sequencePoseId : Nat)
    (command : UpdateSequencePoseCommand) :
    RowsFrom (((updateSequencePose st userId sequenceId sequencePoseId command).2).sequence_poses)
      st.sequence_poses := by
  rw [updateSequencePose]
  cases hv : verifySequenceOwnership st sequenceId userId with
  | error e1 => exact RowsFrom_refl _
  | ok srow =>
    dsimp only
    cases hf : st.sequence_poses.find?
        (fun r => decide (r.id = sequencePoseId ∧ r.sequence_id = sequenceId)) with
    | none => exact RowsFrom_refl _
    | some target =>
      dsimp only
      by_cases hd : command.duration.isSome || command.instructions.isSome
      · rw [if_pos hd]
        exact RowsFrom_refl _
      · rw [if_neg hd]
        cases hp : command.position with
        | none =>
            dsimp only
            rw [fetch_branch_snd]
            exact RowsFrom_refl _
        | some j =>
            dsimp only
            by_cases hj : j = target.position
            · rw [if_pos hj]
              dsimp only
              rw [fetch_branch_snd]
              exact RowsFrom_refl _
            · rw [if_neg hj]
              by_cases hinv : j < 1 ∨ getNextPosition st sequenceId ≤ j
              · rw [if_pos hinv]
                exact RowsFrom_refl _
              · rw [if_neg hinv]
                by_cases hdir : target.position < j
                · rw [if_pos hdir]
                  rcases h1eq : runUpdates st
                      ((sortByPositionAsc ((seqEntries st sequenceId).filter fun r =>
                        decide (target.position < r.position ∧ r.position ≤ j))).map
                        fun r => (r.id, r.position - 1)) with ⟨r1, s1⟩
                  have hs1 : RowsFrom s1.sequence_poses st.sequence_poses := by
                    have := runUpdates_rowsFrom
                      ((sortByPositionAsc ((seqEntries st sequenceId).filter fun r =>
                        decide (target.position < r.position ∧ r.position ≤ j))).map
                        fun r => (r.id, r.position - 1)) st
                    rw [h1eq] at this
                    exact this
                  rw [h1eq]
                  cases r1 with
                  | error e1 => exact hs1
                  | ok u1 =>
                      dsimp only
                      rw [if_neg (by omega : ¬ j < target.position)]
                      dsimp only
                      rcases h2eq : tryWrite s1 (WriteOp.upd sequencePoseId j) with ⟨r2, s2⟩
                      have hs2 : RowsFrom s2.sequence_poses s1.sequence_poses := by
                        have := tryWrite_upd_rowsFrom s1 sequencePoseId j
                        rw [h2eq] at this
                        exact this
                      cases r2 with
                      | error e2 => exact RowsFrom_trans hs2 hs1
                      | ok u2 =>
                          dsimp only
                          rw [fetch_branch_snd]
                          exact RowsFrom_trans hs2 hs1
                · rw [if_neg hdir]
                  dsimp only
                  by_cases hdir2 : j < target.position
                  · rw [if_pos hdir2]
                    rcases h1eq : runUpdates st
                        ((sortByPositionDesc ((seqEntries st sequenceId).filter fun r =>
                          decide (j ≤ r.position ∧ r.position < target.position))).map
                          fun r => (r.id, r.position + 1)) with ⟨r1, s1⟩
                    have hs1 : RowsFrom s1.sequence_poses st.sequence_poses := by
                      have := runUpdates_rowsFrom
                        ((sortByPositionDesc ((seqEntries st sequenceId).filter fun r =>
                          decide (j ≤ r.position ∧ r.position < target.position))).map
                          fun r => (r.id, r.position + 1)) st
                      rw [h1eq] at this
                      exact this
                    rw [h1eq]
                    cases r1 with
                    | error e1 => exact hs1
                    | ok u1 =>
                        dsimp only
                        rcases h2eq : tryWrite s1 (WriteOp.upd sequencePoseId j) with ⟨r2, s2⟩
                        have hs2 : RowsFrom s2.sequence_poses s1.sequence_poses := by
                          have := tryWrite_upd_rowsFrom s1 sequencePoseId j
                          rw [h2eq] at this
                          exact this
                        cases r2 with
                        | error e2 => exact RowsFrom_trans hs2 hs1
                        | ok u2 =>
                            dsimp only
                            rw [fetch_branch_snd]
                            exact RowsFrom_trans hs2 hs1
                  · rw [if_neg hdir2]
                    dsimp only
                    rcases h2eq : tryWrite st (WriteOp.upd sequencePoseId j) with ⟨r2, s2⟩
                    have hs2 : RowsFrom s2.sequence_poses st.sequence_poses := by
                      have := tryWrite_upd_rowsFrom st sequencePoseId j
                      rw [h2eq] at this
                      exact this
                    cases r2 with
                    | error e2 => exact hs2
                    | ok u2 =>
                        dsimp only
                        rw [fetch_branch_snd]
                        exact hs2

theorem tryWrite_del_rowsFrom (st : Store) (rid : Nat) :
    RowsFrom (((tryWrite st (WriteOp.del rid)).2).sequence_poses) st.sequence_poses := by
  rw [tryWrite]
  cases hb : st.writeBudget with
  | none =>
      dsimp only
      exact RowsFrom_filter _ st.sequence_poses
  | some k =>
      cases k with
      | zero => exact RowsFrom_refl _
      | succ k =>
          dsimp only
          exact RowsFrom_filter _ st.sequence_poses

/-- Remove only deletes and shifts positions, whatever its outcome. -/
theorem removeSequencePose_rowsFrom (st : Store) (userId sequenceId sequencePoseId : Nat) :
    RowsFrom (((removeSequencePose st userId sequenceId sequencePoseId).2).sequence_poses)
      st.sequence_poses := by
  rw [removeSequencePose]
  cases hv : verifySequenceOwnership st sequenceId userId with
  | error e1 => exact RowsFrom_refl _
  | ok srow =>
    dsimp only
    cases hf : st.sequence_poses.find?
        (fun r => decide (r.id = sequencePoseId ∧ r.sequence_id = sequenceId)) with
    | none => exact RowsFrom_refl _
    | some target =>
      dsimp only
      rcases h1eq : tryWrite st (WriteOp.del sequencePoseId) with ⟨r1, s1⟩
      have hs1 : RowsFrom s1.sequence_poses st.sequence_poses := by
        have := tryWrite_del_rowsFrom st sequencePoseId
        rw [h1eq] at this
        exact this
      cases r1 with
      | error e1 => exact hs1
      | ok u1 =>
          dsimp only
          rw [shiftPositionsDown]
          exact RowsFrom_trans (runUpdates_rowsFrom _ _) hs1

/-! ### Positions of the result states -/

theorem ite3_upd_seq (c1 c2 : Prop) [Decidable c1] [Decidable c2]
    (r : SequencePoseRow) (q1 q2 : Int) :
    (if c1 then { r with position := q1 }
     else if c2 then { r with position := q2 } else r).sequence_id = r.sequence_id := by
  split
  · rfl
  · split <;> rfl

theorem seqEntries_ids_nodup {st : Store} {sequenceId : Nat}
    (hnd : (st.sequence_poses.map fun r => r.id).Nodup) :
    ((seqEntries st sequenceId).map fun r => r.id).Nodup :=
  hnd.sublist ((List.filter_sublist _).map _)

/-- Positions after an insert-shift: the old positions shifted, with the new
position appended. -/
theorem positionsOf_insert (st st2 : Store) (sequenceId : Nat)
    (newRow : SequencePoseRow) (p : Int)
    (hnew : newRow.sequence_id = sequenceId) (hpos : newRow.position = p)
    (hrows : st2.sequence_poses =
      (st.sequence_poses.map fun r =>
        if r.sequence_id = sequenceId ∧ p ≤ r.position then
          { r with position := r.position + 1 }
        else r) ++ [newRow]) :
    positionsOf st2 sequenceId =
      ((positionsOf st sequenceId).map fun q => if p ≤ q then q + 1 else q) ++ [p] := by
  rw [positionsOf, seqEntries, hrows, List.filter_append,
    filter_map_pres _ _ _ (fun x => by rw [ite_upd_seq])]
  rw [show List.filter (fun r => decide (r.sequence_id = sequenceId)) [newRow] = [newRow]
    from by simp [hnew]]
  rw [List.map_append, List.map_map]
  congr 1
  · rw [positionsOf, List.map_map]
    apply List.map_congr_left
    intro r hr
    have hseq : r.sequence_id = sequenceId := by
      have := List.of_mem_filter hr
      simpa using this
    simp only [Function.comp_apply]
    by_cases hc : p ≤ r.position
    · rw [if_pos ⟨hseq, hc⟩, if_pos hc]
    · rw [if_neg (by rintro ⟨h1, h2⟩; exact hc h2), if_neg hc]
  · simp [hpos]

/-- Positions after a move: the target's position is replaced by `j` and the
in-between block is shifted pointwise. -/
theorem positionsOf_target_map (st st2 : Store) (sequenceId sequencePoseId : Nat)
    (target : SequencePoseRow) (j : Int) (P : Int → Prop) [DecidablePred P]
    (g : Int → Int)
    (hnd : (st.sequence_poses.map fun r => r.id).Nodup)
    (hpnd : (positionsOf st sequenceId).Nodup)
    (htmem : target ∈ st.sequence_poses) (htid : target.id = sequencePoseId)
    (htseq : target.sequence_id = sequenceId)
    (hrows : st2.sequence_poses =
      st.sequence_poses.map fun r =>
        if r.id = sequencePoseId then { r with position := j }
        else if r.sequence_id = sequenceId ∧ P r.position then
          { r with position := g r.position }
        else r) :
    positionsOf st2 sequenceId =
      (positionsOf st sequenceId).map fun q =>
        if q = target.position then j else if P q then g q else q := by
  have htentry : target ∈ seqEntries st sequenceId :=
    List.mem_filter.mpr ⟨htmem, by simpa using htseq⟩
  rw [positionsOf, seqEntries, hrows,
    filter_map_pres _ _ _ (fun x => by rw [ite3_upd_seq]), List.map_map,
    positionsOf, List.map_map]
  apply List.map_congr_left
  intro r hr
  have hseq : r.sequence_id = sequenceId := by
    have := List.of_mem_filter hr
    simpa using this
  have hrmem : r ∈ st.sequence_poses := List.mem_of_mem_filter hr
  simp only [Function.comp_apply]
  by_cases hid : r.id = sequencePoseId
  · have hrt : r = target :=
      List.inj_on_of_nodup_map hnd hrmem htmem (by rw [hid, htid])
    rw [if_pos hid, if_pos (by rw [hrt])]
  · have hneq : r.position ≠ target.position := by
      intro hpeq
      have : r = target :=
        List.inj_on_of_nodup_map hpnd hr htentry hpeq
      exact hid (by rw [this, htid])
    rw [if_neg hid, if_neg hneq]
    by_cases hc : P r.position
    · rw [if_pos ⟨hseq, hc⟩, if_pos hc]
    · rw [if_neg (by rintro ⟨h1, h2⟩; exact hc h2), if_neg hc]

/-- Positions after a remove: the old positions split around the deleted
position, and the rest shifted pointwise. -/
theorem positionsOf_remove (st st2 : Store) (sequenceId sequencePoseId : Nat)
    (target : SequencePoseRow)
    (hnd : (st.sequence_poses.map fun r => r.id).Nodup)
    (htmem : target ∈ st.sequence_poses) (htid : target.id = sequencePoseId)
    (htseq : target.sequence_id = sequenceId)
    (hrows : st2.sequence_poses =
      (st.sequence_poses.filter fun r => decide (r.id ≠ sequencePoseId)).map fun r =>
        if r.sequence_id = sequenceId ∧ target.position < r.position then
          { r with position := r.position - 1 }
        else r) :
    ∃ l1 l2 : List Int,
      positionsOf st sequenceId = l1 ++ target.position :: l2 ∧
      positionsOf st2 sequenceId =
        (l1 ++ l2).map fun q => if target.position < q then q - 1 else q := by
  have htentry : target ∈ seqEntries st sequenceId :=
    List.mem_filter.mpr ⟨htmem, by simpa using htseq⟩
  obtain ⟨e1, e2, hsplit⟩ := List.append_of_mem htentry
  have hids : ((seqEntries st sequenceId).map fun r => r.id).Nodup :=
    seqEntries_ids_nodup hnd
  rw [hsplit, List.map_append, List.map_cons] at hids
  have hids2 := List.nodup_middle.mp hids
  have hnotin : target.id ∉ (e1.map fun r => r.id) ++ (e2.map fun r => r.id) :=
    (List.nodup_cons.mp hids2).1
  refine ⟨e1.map fun r => r.position, e2.map fun r => r.position, ?_, ?_⟩
  · rw [positionsOf, hsplit, List.map_append, List.map_cons]
  · have hcomm : (st.sequence_poses.filter fun r =>
        decide (r.id ≠ sequencePoseId)).filter (fun r => decide (r.sequence_id = sequenceId))
        = (seqEntries st sequenceId).filter fun r => decide (r.id ≠ sequencePoseId) := by
      rw [seqEntries, List.filter_filter, List.filter_filter]
      exact List.filter_congr fun x _ => by
        by_cases h1 : x.id = sequencePoseId <;>
          by_cases h2 : x.sequence_id = sequenceId <;> simp [h1, h2]
    have hremoved : (seqEntries st sequenceId).filter
        (fun r => decide (r.id ≠ sequencePoseId)) = e1 ++ e2 := by
      rw [hsplit, List.filter_append, List.filter_cons]
      rw [if_neg (by simp [htid])]
      congr 1
      · apply List.filter_eq_self.mpr
        intro x hx
        simp only [decide_eq_true_eq]
        intro hxe
        exact (fun h => hnotin (List.mem_append.mpr (Or.inl h)))
          (List.mem_map.mpr ⟨x, hx, by rw [hxe, htid]⟩)
      · apply List.filter_eq_self.mpr
        intro x hx
        simp only [decide_eq_true_eq]
        intro hxe
        exact (fun h => hnotin (List.mem_append.mpr (Or.inr h)))
          (List.mem_map.mpr ⟨x, hx, by rw [hxe, htid]⟩)
    rw [positionsOf, seqEntries, hrows,
      filter_map_pres _ _ _ (fun x => by rw [ite_upd_seq]), List.map_map]
    rw [show (st.sequence_poses.filter fun r => decide (r.id ≠ sequencePoseId)).filter
        (fun r => decide (r.sequence_id = sequenceId)) = e1 ++ e2 from
      hcomm.trans hremoved]
    rw [← List.map_append, ← List.map_map]
    rw [List.map_map, List.map_map]
    apply List.map_congr_left
    intro r hr
    have hseq : r.sequence_id = sequenceId := by
      have hr2 : r ∈ seqEntries st sequenceId := by
        rw [hsplit]
        rcases List.mem_append.mp hr with h | h
        · exact List.mem_append.mpr (Or.inl h)
        · exact List.mem_append.mpr (Or.inr (List.mem_cons_of_mem _ h))
      have := List.of_mem_filter hr2
      simpa using this
    simp only [Function.comp_apply]
    by_cases hc : target.position < r.position
    · rw [if_pos ⟨hseq, hc⟩, if_pos hc]
    · rw [if_neg (by rintro ⟨h1, h2⟩; exact hc h2), if_neg hc]

/-! ### Density preservation -/

theorem dense_insert (st st2 : Store) (sequenceId : Nat) (newRow : SequencePoseRow)
    (p : Int) (hd : Dense st sequenceId) (hp1 : 1 ≤ p)
    (hp2 : p ≤ ((positionsOf st sequenceId).length : Int) + 1)
    (hnew : newRow.sequence_id = sequenceId) (hpos : newRow.position = p)
    (hrows : st2.sequence_poses =
      (st.sequence_poses.map fun r =>
        if r.sequence_id = sequenceId ∧ p ≤ r.position then
          { r with position := r.position + 1 }
        else r) ++ [newRow]) :
    Dense st2 sequenceId := by
  have hpos2 := positionsOf_insert st st2 sequenceId newRow p hnew hpos hrows
  rw [Dense, hpos2]
  rw [show (((positionsOf st sequenceId).map fun q => if p ≤ q then q + 1 else q)
      ++ [p]).length = (positionsOf st sequenceId).length + 1 from by
    simp [List.length_append, List.length_map]]
  have h1 := (hd.map fun q => if p ≤ q then q + 1 else q).append_right [p]
  exact h1.trans (perm_insert_dense (positionsOf st sequenceId).length p hp1 hp2)

theorem dense_move_later (st st2 : Store) (sequenceId sequencePoseId : Nat)
    (target : SequencePoseRow) (j : Int)
    (hnd : (st.sequence_poses.map fun r => r.id).Nodup)
    (hd : Dense st sequenceId)
    (htmem : target ∈ st.sequence_poses) (htid : target.id = sequencePoseId)
    (htseq : target.sequence_id = sequenceId)
    (h1 : 1 ≤ target.position) (h2 : target.position < j)
    (h3 : j ≤ ((positionsOf st sequenceId).length : Int))
    (hrows : st2.sequence_poses =
      st.sequence_poses.map fun r =>
        if r.id = sequencePoseId then { r with position := j }
        else if r.sequence_id = sequenceId ∧
            target.position < r.position ∧ r.position ≤ j then
          { r with position := r.position - 1 }
        else r) :
    Dense st2 sequenceId := by
  have hpos2 := positionsOf_target_map st st2 sequenceId sequencePoseId target j
    (fun q => target.position < q ∧ q ≤ j) (fun q => q - 1) hnd
    (dense_nodup_positions hd) htmem htid htseq hrows
  rw [Dense, hpos2]
  rw [show ((positionsOf st sequenceId).map fun q =>
      if q = target.position then j
      else if target.position < q ∧ q ≤ j then q - 1 else q).length
      = (positionsOf st sequenceId).length from List.length_map _ _]
  exact (hd.map _).trans
    (perm_move_later_dense (positionsOf st sequenceId).length target.position j h1 h2 h3)

theorem dense_move_earlier (st st2 : Store) (sequenceId sequencePoseId : Nat)
    (target : SequencePoseRow) (j : Int)
    (hnd : (st.sequence_poses.map fun r => r.id).Nodup)
    (hd : Dense st sequenceId)
    (htmem : target ∈ st.sequence_poses) (htid : target.id = sequencePoseId)
    (htseq : target.sequence_id = sequenceId)
    (h1 : 1 ≤ j) (h2 : j < target.position)
    (h3 : target.position ≤ ((positionsOf st sequenceId).length : Int))
    (hrows : st2.sequence_poses =
      st.sequence_poses.map fun r =>
        if r.id = sequencePoseId then { r with position := j }
        else if r.sequence_id = sequenceId ∧
            j ≤ r.position ∧ r.position < target.position then
          { r with position := r.position + 1 }
        else r) :
    Dense st2 sequenceId := by
  have hpos2 := positionsOf_target_map st st2 sequenceId sequencePoseId target j
    (fun q => j ≤ q ∧ q < target.position) (fun q => q + 1) hnd
    (dense_nodup_positions hd) htmem htid htseq hrows
  rw [Dense, hpos2]
  rw [show ((positionsOf st sequenceId).map fun q =>
      if q = target.position then j
      else if j ≤ q ∧ q < target.position then q + 1 else q).length
      = (positionsOf st sequenceId).length from List.length_map _ _]
  exact (hd.map _).trans
    (perm_move_earlier_dense (positionsOf st sequenceId).length target.position j h1 h2 h3)

theorem dense_remove (st st2 : Store) (sequenceId sequencePoseId : Nat)
    (target : SequencePoseRow)
    (hnd : (st.sequence_poses.map fun r => r.id).Nodup)
    (hd : Dense st sequenceId)
    (htmem : target ∈ st.sequence_poses) (htid : target.id = sequencePoseId)
    (htseq : target.sequence_id = sequenceId)
    (hrows : st2.sequence_poses =
      (st.sequence_poses.filter fun r => decide (r.id ≠ sequencePoseId)).map fun r =>
        if r.sequence_id = sequenceId ∧ target.position < r.position then
          { r with position := r.position - 1 }
        else r) :
    Dense st2 sequenceId := by
  obtain ⟨l1, l2, hsplit, hpos2⟩ :=
    positionsOf_remove st st2 sequenceId sequencePoseId target hnd htmem htid htseq hrows
  have hb := dense_position_bounds hd
    (List.mem_filter.mpr ⟨htmem, by simpa using htseq⟩)
  have hlen : (positionsOf st sequenceId).length = l1.length + 1 + l2.length := by
    rw [hsplit]
    simp [List.length_append]
    omega
  rw [Dense, hpos2]
  rw [show ((l1 ++ l2).map fun q =>
      if target.position < q then q - 1 else q).length = l1.length + l2.length from by
    simp [List.length_append, List.length_map]]
  have hperm : (l1 ++ target.position :: l2).Perm
      (denseRange (positionsOf st sequenceId).length) := by
    rw [← hsplit]
    exact hd
  have h := perm_remove_dense (positionsOf st sequenceId).length target.position l1 l2
    hb.1 hb.2 hperm
  rw [show (positionsOf st sequenceId).length - 1 = l1.length + l2.length from by omega] at h
  exact h

theorem positionsOf_append (st st2 : Store) (sequenceId : Nat)
    (newRow : SequencePoseRow) (hnew : newRow.sequence_id = sequenceId)
    (hrows : st2.sequence_poses = st.sequence_poses ++ [newRow]) :
    positionsOf st2 sequenceId = positionsOf st sequenceId ++ [newRow.position] := by
  rw [positionsOf, seqEntries, hrows, List.filter_append,
    show List.filter (fun r => decide (r.sequence_id = sequenceId)) [newRow] = [newRow]
      from by simp [hnew],
    List.map_append, positionsOf]
  rfl

theorem dense_append (st st2 : Store) (sequenceId : Nat) (newRow : SequencePoseRow)
    (hd : Dense st sequenceId) (hnew : newRow.sequence_id = sequenceId)
    (hpos : newRow.position = ((positionsOf st sequenceId).length : Int) + 1)
    (hrows : st2.sequence_poses = st.sequence_poses ++ [newRow]) :
    Dense st2 sequenceId := by
  rw [Dense, positionsOf_append st st2 sequenceId newRow hnew hrows]
  rw [show (positionsOf st sequenceId ++ [newRow.position]).length
      = (positionsOf st sequenceId).length + 1 from by simp]
  have hsnoc : denseRange (positionsOf st sequenceId).length ++ [newRow.position]
      = denseRange ((positionsOf st sequenceId).length + 1) := by
    rw [denseRange, denseRange, denseFrom_append 1 (positionsOf st sequenceId).length 1]
    congr 1
    rw [hpos, show (1 + ((positionsOf st sequenceId).length : Int))
        = ((positionsOf st sequenceId).length : Int) + 1 from by omega]
    rfl
  rw [← hsnoc]
  exact hd.append_right [newRow.position]

/-! ### Concrete stores for witnesses and counterexamples -/

def exRow (i : Nat) (p : Int) : SequencePoseRow :=
  { id := i, sequence_id := 1, pose_id := 5, pose_version_id := 7, position := p }

/-- A store with one user (0) owning sequence 1 with three entries at
positions 1, 2, 3, and one pose (5) whose current version is 7. -/
def exStore : Store :=
  { sequences := [{ id := 1, user_id := 0 }]
    sequence_poses := [exRow 10 1, exRow 11 2, exRow 12 3]
    poses := [{ id := 5, current_version_id := some 7 }]
    pose_versions := [{ id := 7, pose_id := 5, version := 1 }]
    nextId := 100
    writeBudget := none
    trace := [] }

/-- Like `exStore` but with a single entry at position 1. -/
def exStore1 : Store := { exStore with sequence_poses := [exRow 10 1] }

/-! ### Claims -/

/-- C1 (amended -- the service checks no lower bound on an insert position,
so density is preserved only for supplied insert positions `>= 1`, which the
HTTP layer guarantees): on a well-formed store with a healthy write budget
and a dense sequence, every successful Insert whose supplied position is at
least 1 (or omitted), every successful Move and every successful Remove
yields a state whose positions again form exactly the dense range
`{1..N'}` for the new entry count `N'`. -/
theorem C1_dense_invariant (st : Store) (userId sequenceId sequencePoseId : Nat)
    (addCmd : AddPoseToSequenceCommand) (updCmd : UpdateSequencePoseCommand)
    (hwf : WF st) (hb : st.writeBudget = none) (hd : Dense st sequenceId) :
    (∀ row st2, (∀ p, addCmd.position = some p → 1 ≤ p) →
      addPoseToSequence st userId sequenceId addCmd = (Except.ok row, st2) →
      Dense st2 sequenceId) ∧
    (∀ row st2, updateSequencePose st userId sequenceId sequencePoseId updCmd
      = (Except.ok row, st2) → Dense st2 sequenceId) ∧
    (∀ st2, removeSequencePose st userId sequenceId sequencePoseId
      = (Except.ok (), st2) → Dense st2 sequenceId) := by
  obtain ⟨hnd, hfresh⟩ := hwf
  have hN := getNextPosition_of_dense hd
  refine ⟨?_, ?_, ?_⟩
  · intro row st2 hp1 hok
    cases hv : verifySequenceOwnership st sequenceId userId with
    | error e1 =>
        rw [addPoseToSequence_own_error hv] at hok
        exact absurd hok (by simp)
    | ok srow =>
      cases hr : resolvePoseVersion st addCmd.poseId addCmd.poseVersion with
      | error e1 =>
          rw [addPoseToSequence] at hok
          rw [hv] at hok
          dsimp only at hok
          rw [hr] at hok
          dsimp only at hok
          exact absurd hok (by simp)
      | ok vid =>
        cases hp : addCmd.position with
        | none =>
            rw [addPoseToSequence_none_ok st userId sequenceId addCmd srow vid
              hb hfresh hv hr hp] at hok
            injection hok with h1 h2
            exact dense_append st st2 sequenceId
              { id := st.nextId, sequence_id := sequenceId, pose_id := addCmd.poseId,
                pose_version_id := vid, position := getNextPosition st sequenceId }
              hd rfl hN (by rw [← h2])
        | some p =>
            have h1p : 1 ≤ p := hp1 p hp
            by_cases hple : p ≤ getNextPosition st sequenceId
            · rw [addPoseToSequence_some_ok st userId sequenceId addCmd srow vid p
                hb hnd hfresh hv hr hp hple] at hok
              injection hok with h1 h2
              exact dense_insert st st2 sequenceId
                { id := st.nextId, sequence_id := sequenceId, pose_id := addCmd.poseId,
                  pose_version_id := vid, position := p }
                p hd h1p (by omega) rfl rfl (by rw [← h2])
            · rw [addPoseToSequence_invalid hv hr hp (by omega)] at hok
              exact absurd hok (by simp)
  · intro row st2 hok
    cases hv : verifySequenceOwnership st sequenceId userId with
    | error e1 =>
        rw [updateSequencePose_own_error hv] at hok
        exact absurd hok (by simp)
    | ok srow =>
      cases hf : st.sequence_poses.find?
          (fun r => decide (r.id = sequencePoseId ∧ r.sequence_id = sequenceId)) with
      | none =>
          rw [updateSequencePose] at hok
          rw [hv] at hok
          dsimp only at hok
          rw [hf] at hok
          dsimp only at hok
          exact absurd hok (by simp)
      | some target =>
        have htprop : target.id = sequencePoseId ∧ target.sequence_id = sequenceId := by
          simpa using List.find?_some hf
        have htmem : target ∈ st.sequence_poses := List.mem_of_find?_eq_some hf
        have htentry : target ∈ seqEntries st sequenceId :=
          List.mem_filter.mpr ⟨htmem, by simpa using htprop.2⟩
        have hbnds := dense_position_bounds hd htentry
        by_cases hdur : updCmd.duration.isSome || updCmd.instructions.isSome
        · rw [updateSequencePose_not_supported hv hf hdur] at hok
          exact absurd hok (by simp)
        · have hdn : updCmd.duration = none := by
            cases hx : updCmd.duration with
            | none => rfl
            | some v => rw [hx] at hdur; simp at hdur
          have hin : updCmd.instructions = none := by
            cases hx : updCmd.instructions with
            | none => rfl
            | some v => rw [hx] at hdur; simp at hdur
          cases hpc : updCmd.position with
          | none =>
              rw [updateSequencePose_noop st userId sequenceId sequencePoseId updCmd
                srow target hnd hv hf hdn hin (Or.inl hpc)] at hok
              injection hok with h1 h2
              rw [← h2]
              exact hd
          | some j =>
              by_cases hj : j = target.position
              · rw [updateSequencePose_noop st userId sequenceId sequencePoseId updCmd
                  srow target hnd hv hf hdn hin (Or.inr (by rw [hpc, hj]))] at hok
                injection hok with h1 h2
                rw [← h2]
                exact hd
              · by_cases hinv : j < 1 ∨ getNextPosition st sequenceId ≤ j
                · rw [updateSequencePose_invalid hv hf hdn hin hpc hj hinv] at hok
                  exact absurd hok (by simp)
                · have hj1 : 1 ≤ j := by omega
                  have hjmax : j < getNextPosition st sequenceId := by omega
                  by_cases hdir : target.position < j
                  · rw [updateSequencePose_later_ok st userId sequenceId sequencePoseId
                      updCmd srow target j hb hnd hv hf hdn hin hpc hj1 hdir
                      hjmax] at hok
                    injection hok with h1 h2
                    exact dense_move_later st st2 sequenceId sequencePoseId target j
                      hnd hd htmem htprop.1 htprop.2 hbnds.1 hdir (by omega)
                      (by rw [← h2])
                  · have hdir2 : j < target.position := by omega
                    rw [updateSequencePose_earlier_ok st userId sequenceId sequencePoseId
                      updCmd srow target j hb hnd hv hf hdn hin hpc hj1 hdir2
                      hjmax] at hok
                    injection hok with h1 h2
                    exact dense_move_earlier st st2 sequenceId sequencePoseId target j
                      hnd hd htmem htprop.1 htprop.2 hj1 hdir2 hbnds.2
                      (by rw [← h2])
  · intro st2 hok
    cases hv : verifySequenceOwnership st sequenceId userId with
    | error e1 =>
        rw [removeSequencePose_own_error hv] at hok
        exact absurd hok (by simp)
    | ok srow =>
      cases hf : st.sequence_poses.find?
          (fun r => decide (r.id = sequencePoseId ∧ r.sequence_id = sequenceId)) with
      | none =>
          rw [removeSequencePose] at hok
          rw [hv] at hok
          dsimp only at hok
          rw [hf] at hok
          dsimp only at hok
          exact absurd hok (by simp)
      | some target =>
        have htprop : target.id = sequencePoseId ∧ target.sequence_id = sequenceId := by
          simpa using List.find?_some hf
        have htmem : target ∈ st.sequence_poses := List.mem_of_find?_eq_some hf
        rw [removeSequencePose_ok st userId sequenceId sequencePoseId srow target
          hb hnd hv hf] at hok
        injection hok with h1 h2
        exact dense_remove st st2 sequenceId sequencePoseId target hnd hd htmem
          htprop.1 htprop.2 (by rw [← h2])

deriving instance DecidableEq for Except

instance (st : Store) : Decidable (WF st) := by
  unfold WF
  infer_instance

instance (st : Store) (sequenceId : Nat) : Decidable (Dense st sequenceId) := by
  unfold Dense
  exact List.decidablePerm _ _

/-- The store obtained from `exStore` by a successful insert at position 2. -/
def exStoreInsert2 : Store :=
  { exStore with
    sequence_poses := [exRow 10 1, exRow 11 3, exRow 12 4, exRow 100 2]
    nextId := 101
    trace := [WriteOp.upd 12 4, WriteOp.upd 11 3, WriteOp.ins (exRow 100 2)] }

/-- C1 counterexample: on a dense one-entry sequence, Insert at position 0
succeeds (`addPoseToSequence` checks no lower bound) and the resulting
positions are {0, 2}, not the dense range {1, 2}. -/
theorem C1_counterexample :
    Dense exStore1 1 ∧
    (addPoseToSequence exStore1 0 1
      { poseId := 5, poseVersion := none, position := some 0 }).1
      = Except.ok { id := 100, sequence_id := 1, pose_id := 5,
                    pose_version_id := 7, position := 0 } ∧
    ¬ Dense (addPoseToSequence exStore1 0 1
      { poseId := 5, poseVersion := none, position := some 0 }).2 1 :=
  ⟨by decide, by decide, by decide⟩

/-- C1 witness: the amended invariant applied to the three-entry store and an
insert at position 2. -/
theorem C1_witness : Dense exStoreInsert2 1 :=
  (C1_dense_invariant exStore 0 1 10
      { poseId := 5, poseVersion := none, position := some 2 }
      { position := none, duration := none, instructions := none }
      (by decide) rfl (by decide)).1
    { id := 100, sequence_id := 1, pose_id := 5, pose_version_id := 7, position := 2 }
    exStoreInsert2
    (fun p hp => by injection hp with h; omega) (by decide)

theorem sortByPositionAsc_perm (l : List SequencePoseRow) :
    (sortByPositionAsc l).Perm l := List.perm_insertionSort _ _

theorem sortByPositionAsc_sorted (l : List SequencePoseRow) :
    (sortByPositionAsc l).Sorted posLe := List.sorted_insertionSort _ _

theorem sortByPositionDesc_perm (l : List SequencePoseRow) :
    (sortByPositionDesc l).Perm l := List.perm_insertionSort _ _

theorem sortByPositionDesc_sorted (l : List SequencePoseRow) :
    (sortByPositionDesc l).Sorted posGe := List.sorted_insertionSort _ _

/-- C2: on a dense sequence of `N` entries, Insert with a supplied valid
position `p` (`1 ≤ p ≤ N + 1`) increments by one exactly the existing
entries with position `≥ p`, issuing those updates in descending-position
order before the insert of the new row at `p`; Insert with the position
omitted creates the new row at `N + 1` and writes no existing row. -/
theorem C2_insert_postcondition (st : Store) (userId sequenceId : Nat)
    (command : AddPoseToSequenceCommand) (srow : SequenceRow) (vid : Nat)
    (hwf : WF st) (hb : st.writeBudget = none) (hd : Dense st sequenceId)
    (hown : verifySequenceOwnership st sequenceId userId = Except.ok srow)
    (hres : resolvePoseVersion st command.poseId command.poseVersion = Except.ok vid) :
    (∀ p : Int, command.position = some p → 1 ≤ p →
      p ≤ ((positionsOf st sequenceId).length : Int) + 1 →
      ∃ shifts : List SequencePoseRow,
        shifts.Perm ((seqEntries st sequenceId).filter fun r =>
          decide (p ≤ r.position)) ∧
        shifts.Sorted posGe ∧
        addPoseToSequence st userId sequenceId command =
          (Except.ok { id := st.nextId, sequence_id := sequenceId, pose_id := command.poseId, pose_version_id := vid, position := p },
           { st with
             sequence_poses := (st.sequence_poses.map fun r =>
               if r.sequence_id = sequenceId ∧ p ≤ r.position then
                 { r with position := r.position + 1 }
               else r) ++
               [{ id := st.nextId, sequence_id := sequenceId, pose_id := command.poseId, pose_version_id := vid, position := p }],
             nextId := st.nextId + 1,
             trace := st.trace ++
               (shifts.map fun r => WriteOp.upd r.id (r.position + 1)) ++
               [WriteOp.ins { id := st.nextId, sequence_id := sequenceId, pose_id := command.poseId, pose_version_id := vid, position := p }] })) ∧
    (command.position = none →
      addPoseToSequence st userId sequenceId command =
        (Except.ok { id := st.nextId, sequence_id := sequenceId, pose_id := command.poseId, pose_version_id := vid, position := ((positionsOf st sequenceId).length : Int) + 1 },
         { st with
           sequence_poses := st.sequence_poses ++
             [{ id := st.nextId, sequence_id := sequenceId, pose_id := command.poseId, pose_version_id := vid, position := ((positionsOf st sequenceId).length : Int) + 1 }],
           nextId := st.nextId + 1,
           trace := st.trace ++
             [WriteOp.ins { id := st.nextId, sequence_id := sequenceId, pose_id := command.poseId, pose_version_id := vid, position := ((positionsOf st sequenceId).length : Int) + 1 }] })) := by
  obtain ⟨hnd, hfresh⟩ := hwf
  have hN := getNextPosition_of_dense hd
  constructor
  · intro p hp hp1 hp2
    refine ⟨sortByPositionDesc ((seqEntries st sequenceId).filter fun r =>
      decide (p ≤ r.position)), sortByPositionDesc_perm _,
      sortByPositionDesc_sorted _, ?_⟩
    exact addPoseToSequence_some_ok st userId sequenceId command srow vid p
      hb hnd hfresh hown hres hp (by omega)
  · intro hp
    have h := addPoseToSequence_none_ok st userId sequenceId command srow vid
      hb hfresh hown hres hp
    rw [hN] at h
    exact h

/-- C2 witness: appending to the three-entry store lands at position 4 and
touches no existing row. -/
theorem C2_witness :
    addPoseToSequence exStore 0 1 { poseId := 5, poseVersion := none, position := none }
      = (Except.ok (exRow 100 4),
         { exStore with
           sequence_poses := [exRow 10 1, exRow 11 2, exRow 12 3, exRow 100 4]
           nextId := 101
           trace := [WriteOp.ins (exRow 100 4)] }) :=
  (C2_insert_postcondition exStore 0 1
      { poseId := 5, poseVersion := none, position := none }
      { id := 1, user_id := 0 } 7 (by decide) rfl (by decide) (by decide) (by decide)).2
    rfl

/-- C3: on a dense sequence, Move to the current position writes nothing and
still returns the entry; Move later decrements exactly the entries in
`(old, new]` in ascending order and then sets the target; Move earlier
increments exactly the entries in `[new, old)` in descending order and then
sets the target. -/
theorem C3_move_postcondition (st : Store) (userId sequenceId sequencePoseId : Nat)
    (command : UpdateSequencePoseCommand) (srow : SequenceRow)
    (target : SequencePoseRow)
    (hwf : WF st) (hb : st.writeBudget = none) (hd : Dense st sequenceId)
    (hown : verifySequenceOwnership st sequenceId userId = Except.ok srow)
    (hfind : st.sequence_poses.find?
      (fun r => decide (r.id = sequencePoseId ∧ r.sequence_id = sequenceId)) = some target)
    (hdur : command.duration = none) (hins : command.instructions = none) :
    (∀ j : Int, command.position = some j → j = target.position →
      updateSequencePose st userId sequenceId sequencePoseId command
        = (Except.ok target, st)) ∧
    (∀ j : Int, command.position = some j → target.position < j →
      j ≤ ((positionsOf st sequenceId).length : Int) →
      ∃ shifts : List SequencePoseRow,
        shifts.Perm ((seqEntries st sequenceId).filter fun r =>
          decide (target.position < r.position ∧ r.position ≤ j)) ∧
        shifts.Sorted posLe ∧
        updateSequencePose st userId sequenceId sequencePoseId command =
          (Except.ok { target with position := j },
           { st with
             sequence_poses := st.sequence_poses.map fun r =>
               if r.id = sequencePoseId then { r with position := j }
               else if r.sequence_id = sequenceId ∧
                   target.position < r.position ∧ r.position ≤ j then
                 { r with position := r.position - 1 }
               else r,
             trace := st.trace ++
               (shifts.map fun r => WriteOp.upd r.id (r.position - 1)) ++
               [WriteOp.upd sequencePoseId j] })) ∧
    (∀ j : Int, command.position = some j → j < target.position → 1 ≤ j →
      ∃ shifts : List SequencePoseRow,
        shifts.Perm ((seqEntries st sequenceId).filter fun r =>
          decide (j ≤ r.position ∧ r.position < target.position)) ∧
        shifts.Sorted posGe ∧
        updateSequencePose st userId sequenceId sequencePoseId command =
          (Except.ok { target with position := j },
           { st with
             sequence_poses := st.sequence_poses.map fun r =>
               if r.id = sequencePoseId then { r with position := j }
               else if r.sequence_id = sequenceId ∧
                   j ≤ r.position ∧ r.position < target.position then
                 { r with position := r.position + 1 }
               else r,
             trace := st.trace ++
               (shifts.map fun r => WriteOp.upd r.id (r.position + 1)) ++
               [WriteOp.upd sequencePoseId j] })) := by
  obtain ⟨hnd, hfresh⟩ := hwf
  have hN := getNextPosition_of_dense hd
  have htprop : target.id = sequencePoseId ∧ target.sequence_id = sequenceId := by
    simpa using List.find?_some hfind
  have htentry : target ∈ seqEntries st sequenceId :=
    List.mem_filter.mpr ⟨List.mem_of_find?_eq_some hfind, by simpa using htprop.2⟩
  have hbnds := dense_position_bounds hd htentry
  refine ⟨?_, ?_, ?_⟩
  · intro j hp hj
    exact updateSequencePose_noop st userId sequenceId sequencePoseId command
      srow target hnd hown hfind hdur hins (Or.inr (by rw [hp, hj]))
  · intro j hp hlt hle
    refine ⟨sortByPositionAsc ((seqEntries st sequenceId).filter fun r =>
      decide (target.position < r.position ∧ r.position ≤ j)),
      sortByPositionAsc_perm _, sortByPositionAsc_sorted _, ?_⟩
    exact updateSequencePose_later_ok st userId sequenceId sequencePoseId command
      srow target j hb hnd hown hfind hdur hins hp (by omega) hlt (by omega)
  · intro j hp hgt hj1
    refine ⟨sortByPositionDesc ((seqEntries st sequenceId).filter fun r =>
      decide (j ≤ r.position ∧ r.position < target.position)),
      sortByPositionDesc_perm _, sortByPositionDesc_sorted _, ?_⟩
    exact updateSequencePose_earlier_ok st userId sequenceId sequencePoseId command
      srow target j hb hnd hown hfind hdur hins hp hj1 hgt (by omega)

/-- C3 witness: moving an entry to its current position is a successful
no-op. -/
theorem C3_witness :
    updateSequencePose exStore 0 1 11
      { position := some 2, duration := none, instructions := none }
      = (Except.ok (exRow 11 2), exStore) :=
  (C3_move_postcondition exStore 0 1 11
      { position := some 2, duration := none, instructions := none }
      { id := 1, user_id := 0 } (exRow 11 2) (by decide) rfl (by decide) (by decide)
      (by decide) rfl rfl).1 2 rfl (by decide)

/-- C4: on a dense sequence, Remove deletes the identified entry and then
decrements exactly the entries after the deleted position, in
ascending-position order, leaving earlier entries untouched. -/
theorem C4_remove_postcondition (st : Store) (userId sequenceId sequencePoseId : Nat)
    (srow : SequenceRow) (target : SequencePoseRow)
    (hwf : WF st) (hb : st.writeBudget = none)
    (hown : verifySequenceOwnership st sequenceId userId = Except.ok srow)
    (hfind : st.sequence_poses.find?
      (fun r => decide (r.id = sequencePoseId ∧ r.sequence_id = sequenceId)) = some target) :
    ∃ shifts : List SequencePoseRow,
      shifts.Perm (((st.sequence_poses.filter fun r =>
        decide (r.id ≠ sequencePoseId)).filter fun r =>
          decide (r.sequence_id = sequenceId)).filter fun r =>
            decide (target.position < r.position)) ∧
      shifts.Sorted posLe ∧
      removeSequencePose st userId sequenceId sequencePoseId =
        (Except.ok (),
         { st with
           sequence_poses :=
             (st.sequence_poses.filter fun r => decide (r.id ≠ sequencePoseId)).map
               fun r =>
                 if r.sequence_id = sequenceId ∧ target.position < r.position then
                   { r with position := r.position - 1 }
                 else r,
           trace := st.trace ++ [WriteOp.del sequencePoseId] ++
             shifts.map fun r => WriteOp.upd r.id (r.position - 1) }) := by
  obtain ⟨hnd, hfresh⟩ := hwf
  refine ⟨sortByPositionAsc (((st.sequence_poses.filter fun r =>
      decide (r.id ≠ sequencePoseId)).filter fun r =>
        decide (r.sequence_id = sequenceId)).filter fun r =>
          decide (target.position < r.position)),
    sortByPositionAsc_perm _, sortByPositionAsc_sorted _, ?_⟩
  exact removeSequencePose_ok st userId sequenceId sequencePoseId srow target hb hnd
    hown hfind

/-- C4 witness: removing the middle entry of [1, 2, 3] collapses the gap. -/
theorem C4_witness :
    removeSequencePose exStore 0 1 11
      = (Except.ok (),
         { exStore with
           sequence_poses := [exRow 10 1, exRow 12 2]
           trace := [WriteOp.del 11, WriteOp.upd 12 2] }) := by
  obtain ⟨shifts, hperm, hsorted, hres⟩ :=
    C4_remove_postcondition exStore 0 1 11 { id := 1, user_id := 0 } (exRow 11 2)
      (by decide) rfl (by decide) (by decide)
  rw [hres]
  have hs : shifts = [exRow 12 3] := by
    have hlen := hperm.length_eq
    have : ((exStore.sequence_poses.filter fun r =>
        decide (r.id ≠ 11)).filter fun r =>
          decide (r.sequence_id = 1)).filter
          (fun r => decide ((exRow 11 2).position < r.position)) = [exRow 12 3] := by decide
    rw [this] at hperm
    exact List.perm_singleton.mp hperm
  rw [hs]
  decide

/-- C5 (amended -- the service checks no lower bound on an insert position;
the claimed `1 ≤ p` half of the insert range is enforced only by the HTTP
schema): with ownership verified and the version resolved on a dense
sequence of `N` entries, Insert with a supplied position fails with
`INVALID_POSITION` iff the position exceeds `N + 1`, and Move (entry found,
no unsupported field) fails with `INVALID_POSITION` iff the requested
position differs from the current one and lies outside `1..N`; every such
failure leaves the store untouched. -/
theorem C5_out_of_range (st : Store) (userId sequenceId sequencePoseId : Nat)
    (addCmd : AddPoseToSequenceCommand) (updCmd : UpdateSequencePoseCommand)
    (srow : SequenceRow) (target : SequencePoseRow) (vid : Nat)
    (hwf : WF st) (hb : st.writeBudget = none) (hd : Dense st sequenceId)
    (hown : verifySequenceOwnership st sequenceId userId = Except.ok srow)
    (hres : resolvePoseVersion st addCmd.poseId addCmd.poseVersion = Except.ok vid)
    (hfind : st.sequence_poses.find?
      (fun r => decide (r.id = sequencePoseId ∧ r.sequence_id = sequenceId)) = some target)
    (hdur : updCmd.duration = none) (hins : updCmd.instructions = none) :
    (∀ p : Int, addCmd.position = some p →
      (((addPoseToSequence st userId sequenceId addCmd).1
          = Except.error Err.INVALID_POSITION) ↔
        ((positionsOf st sequenceId).length : Int) + 1 < p) ∧
      (((positionsOf st sequenceId).length : Int) + 1 < p →
        addPoseToSequence st userId sequenceId addCmd
          = (Except.error Err.INVALID_POSITION, st))) ∧
    (∀ j : Int, updCmd.position = some j →
      (((updateSequencePose st userId sequenceId sequencePoseId updCmd).1
          = Except.error Err.INVALID_POSITION) ↔
        (j ≠ target.position ∧
          (j < 1 ∨ ((positionsOf st sequenceId).length : Int) < j))) ∧
      ((j ≠ target.position ∧
          (j < 1 ∨ ((positionsOf st sequenceId).length : Int) < j)) →
        updateSequencePose st userId sequenceId sequencePoseId updCmd
          = (Except.error Err.INVALID_POSITION, st))) := by
  obtain ⟨hnd, hfresh⟩ := hwf
  have hN := getNextPosition_of_dense hd
  have htprop : target.id = sequencePoseId ∧ target.sequence_id = sequenceId := by
    simpa using List.find?_some hfind
  have htentry : target ∈ seqEntries st sequenceId :=
    List.mem_filter.mpr ⟨List.mem_of_find?_eq_some hfind, by simpa using htprop.2⟩
  have hbnds := dense_position_bounds hd htentry
  constructor
  · intro p hp
    have hinv : ((positionsOf st sequenceId).length : Int) + 1 < p →
        addPoseToSequence st userId sequenceId addCmd
          = (Except.error Err.INVALID_POSITION, st) := fun hlt =>
      addPoseToSequence_invalid hown hres hp (by omega)
    refine ⟨⟨?_, fun hlt => by rw [hinv hlt]⟩, hinv⟩
    intro herr
    by_contra hnot
    have hple : p ≤ getNextPosition st sequenceId := by omega
    rw [addPoseToSequence_some_ok st userId sequenceId addCmd srow vid p
      hb hnd hfresh hown hres hp hple] at herr
    exact absurd herr (by simp)
  · intro j hp
    have hinv : (j ≠ target.position ∧
        (j < 1 ∨ ((positionsOf st sequenceId).length : Int) < j)) →
        updateSequencePose st userId sequenceId sequencePoseId updCmd
          = (Except.error Err.INVALID_POSITION, st) := fun hc =>
      updateSequencePose_invalid hown hfind hdur hins hp hc.1 (by omega)
    refine ⟨⟨?_, fun hc => by rw [hinv hc]⟩, hinv⟩
    intro herr
    by_cases hj : j = target.position
    · rw [updateSequencePose_noop st userId sequenceId sequencePoseId updCmd srow
        target hnd hown hfind hdur hins (Or.inr (by rw [hp, hj]))] at herr
      exact absurd herr (by simp)
    · refine ⟨hj, ?_⟩
      by_contra hrange
      have hj1 : 1 ≤ j := by omega
      have hjmax : j < getNextPosition st sequenceId := by omega
      by_cases hdir : target.position < j
      · rw [updateSequencePose_later_ok st userId sequenceId sequencePoseId updCmd
          srow target j hb hnd hown hfind hdur hins hp hj1 hdir hjmax] at herr
        exact absurd herr (by simp)
      · have hdir2 : j < target.position := by omega
        rw [updateSequencePose_earlier_ok st userId sequenceId sequencePoseId updCmd
          srow target j hb hnd hown hfind hdur hins hp hj1 hdir2 hjmax] at herr
        exact absurd herr (by simp)

/-- C5 counterexample: Insert at position 0 — outside the claimed valid
range `1..N+1` — does not fail with `INVALID_POSITION`: the service never
checks the lower bound. -/
theorem C5_counterexample :
    Dense exStore1 1 ∧ ¬ (1 ≤ (0 : Int)) ∧
    (addPoseToSequence exStore1 0 1
      { poseId := 5, poseVersion := none, position := some 0 }).1
      ≠ Except.error Err.INVALID_POSITION :=
  ⟨by decide, by decide, by decide⟩

/-- C5 witness: Insert at position 6 on a three-entry sequence fails with
`INVALID_POSITION` and zero writes. -/
theorem C5_witness :
    addPoseToSequence exStore 0 1 { poseId := 5, poseVersion := none, position := some 6 }
      = (Except.error Err.INVALID_POSITION, exStore) :=
  ((C5_out_of_range exStore 0 1 10
      { poseId := 5, poseVersion := none, position := some 6 }
      { position := none, duration := none, instructions := none }
      { id := 1, user_id := 0 } (exRow 10 1) 7 (by decide) rfl (by decide) (by decide)
      (by decide) (by decide) rfl rfl).1 6 rfl).2 (by decide)

/-- C6: when no sequence row matches the given id and user — the sequence is
absent or belongs to a different user — each of the three operations fails
with the identical `SEQUENCE_NOT_FOUND` and performs no mutation, so a
non-owner request is indistinguishable from one for a missing sequence. -/
theorem C6_ownership_anti_enumeration (st : Store)
    (userId sequenceId sequencePoseId : Nat)
    (addCmd : AddPoseToSequenceCommand) (updCmd : UpdateSequencePoseCommand)
    (h : ∀ r ∈ st.sequences, ¬(r.id = sequenceId ∧ r.user_id = userId)) :
    addPoseToSequence st userId sequenceId addCmd
      = (Except.error Err.SEQUENCE_NOT_FOUND, st) ∧
    updateSequencePose st userId sequenceId sequencePoseId updCmd
      = (Except.error Err.SEQUENCE_NOT_FOUND, st) ∧
    removeSequencePose st userId sequenceId sequencePoseId
      = (Except.error Err.SEQUENCE_NOT_FOUND, st) :=
  ⟨addPoseToSequence_own_error (verifySequenceOwnership_not_found h),
   updateSequencePose_own_error (verifySequenceOwnership_not_found h),
   removeSequencePose_own_error (verifySequenceOwnership_not_found h)⟩

/-- C6 witness: the wrong user (9) and a missing sequence (2) get the same
error with no mutation. -/
theorem C6_witness :
    (addPoseToSequence exStore 9 1 { poseId := 5, poseVersion := none, position := none }
      = (Except.error Err.SEQUENCE_NOT_FOUND, exStore) ∧
     updateSequencePose exStore 9 1 10
        { position := some 2, duration := none, instructions := none }
      = (Except.error Err.SEQUENCE_NOT_FOUND, exStore) ∧
     removeSequencePose exStore 9 1 10
      = (Except.error Err.SEQUENCE_NOT_FOUND, exStore)) ∧
    (addPoseToSequence exStore 0 2 { poseId := 5, poseVersion := none, position := none }
      = (Except.error Err.SEQUENCE_NOT_FOUND, exStore) ∧
     updateSequencePose exStore 0 2 10
        { position := some 2, duration := none, instructions := none }
      = (Except.error Err.SEQUENCE_NOT_FOUND, exStore) ∧
     removeSequencePose exStore 0 2 10
      = (Except.error Err.SEQUENCE_NOT_FOUND, exStore)) :=
  ⟨C6_ownership_anti_enumeration exStore 9 1 10
      { poseId := 5, poseVersion := none, position := none }
      { position := some 2, duration := none, instructions := none } (by decide),
   C6_ownership_anti_enumeration exStore 0 2 10
      { poseId := 5, poseVersion := none, position := none }
      { position := some 2, duration := none, instructions := none } (by decide)⟩

/-- A store that accepts exactly one more write before failing. -/
def exStoreFaulty : Store := { exStore with writeBudget := some 1 }

/-- C7 (amended -- the fail-fast half of the claim holds, but the operations
are not atomic: the per-row update loop runs outside any transaction, so a
store-level write fault mid-shift leaves the already-issued shifts
persisted): every `INVALID_POSITION`, `SEQUENCE_NOT_FOUND`,
`SEQUENCE_POSE_NOT_FOUND`, `POSE_NOT_FOUND` and `POSE_VERSION_NOT_FOUND`
failure — any failure other than a store write fault — is raised before the
operation issues any store write, leaving the store unchanged. -/
theorem C7_failfast (st : Store) (userId sequenceId sequencePoseId : Nat)
    (addCmd : AddPoseToSequenceCommand) (updCmd : UpdateSequencePoseCommand)
    (e : Err) (he : e ≠ Err.STORE_WRITE_FAILED) :
    (∀ st2, addPoseToSequence st userId sequenceId addCmd = (Except.error e, st2) →
      st2 = st) ∧
    (∀ st2, updateSequencePose st userId sequenceId sequencePoseId updCmd
      = (Except.error e, st2) → st2 = st) ∧
    (∀ st2, removeSequencePose st userId sequenceId sequencePoseId
      = (Except.error e, st2) → st2 = st) :=
  ⟨fun st2 h => addPoseToSequence_failfast st userId sequenceId addCmd e st2 he h,
   fun st2 h => updateSequencePose_failfast st userId sequenceId sequencePoseId
     updCmd e st2 he h,
   fun st2 h => removeSequencePose_failfast st userId sequenceId sequencePoseId
     e st2 he h⟩

/-- C7 counterexample: with a store that fails on the second write, moving
the first entry of [1, 2, 3] to position 3 aborts mid-shift with a store
error and leaves a partially shifted state — the stored state observable
afterwards differs from the pre-operation state, so the operation is not
atomic. -/
theorem C7_counterexample :
    (updateSequencePose exStoreFaulty 0 1 10
      { position := some 3, duration := none, instructions := none }).1
      = Except.error Err.STORE_WRITE_FAILED ∧
    (updateSequencePose exStoreFaulty 0 1 10
      { position := some 3, duration := none, instructions := none }).2.sequence_poses
      ≠ exStoreFaulty.sequence_poses ∧
    (updateSequencePose exStoreFaulty 0 1 10
      { position := some 3, duration := none, instructions := none }).2.sequence_poses
      = [exRow 10 1, exRow 11 1, exRow 12 3] :=
  ⟨by decide, by decide, by decide⟩

/-- C7 witness: an ownership failure leaves the store untouched. -/
theorem C7_witness :
    (addPoseToSequence exStore 9 1
      { poseId := 5, poseVersion := none, position := none }).2 = exStore :=
  (C7_failfast exStore 9 1 10
      { poseId := 5, poseVersion := none, position := none }
      { position := none, duration := none, instructions := none }
      Err.SEQUENCE_NOT_FOUND (by decide)).1
    (addPoseToSequence exStore 9 1
      { poseId := 5, poseVersion := none, position := none }).2 (by decide)

/-- C8: a Move/update request carrying a defined duration or instructions
field — even alongside a valid position — fails at the service with the
distinct `DURATION_AND_INSTRUCTIONS_NOT_SUPPORTED` signal, performs no store
write, and the PATCH handler surfaces it as `FEATURE_NOT_SUPPORTED` with
HTTP 400 rather than as a validation error; the fields are never silently
ignored. -/
theorem C8_unsupported_fields (st : Store) (userId sequenceId sequencePoseId : Nat)
    (updCmd : UpdateSequencePoseCommand) (body : UpdatePoseRequestBody)
    (srow : SequenceRow) (target : SequencePoseRow)
    (hown : verifySequenceOwnership st sequenceId userId = Except.ok srow)
    (hfind : st.sequence_poses.find?
      (fun r => decide (r.id = sequencePoseId ∧ r.sequence_id = sequenceId)) = some target)
    (hdef : updCmd.duration.isSome || updCmd.instructions.isSome)
    (hparse : updateSequencePoseSchemaParse body = some updCmd) :
    updateSequencePose st userId sequenceId sequencePoseId updCmd
      = (Except.error Err.DURATION_AND_INSTRUCTIONS_NOT_SUPPORTED, st) ∧
    handlePATCH st userId sequenceId sequencePoseId body
      = (ApiResponse.failure 400 ApiCode.FEATURE_NOT_SUPPORTED, st) := by
  have hsvc := updateSequencePose_not_supported hown hfind hdef
  refine ⟨hsvc, ?_⟩
  simp only [handlePATCH, hparse, hsvc, patchErrorResponse]

/-- C8 witness: a PATCH carrying duration 5 beside a valid position 1 is
answered with `FEATURE_NOT_SUPPORTED` 400 and no mutation. -/
theorem C8_witness :
    updateSequencePose exStore 0 1 10
        { position := some 1, duration := some 5, instructions := none }
      = (Except.error Err.DURATION_AND_INSTRUCTIONS_NOT_SUPPORTED, exStore) ∧
    handlePATCH exStore 0 1 10
        { position := some (JsonVal.jint 1), duration := some (JsonVal.jint 5),
          instructions := none }
      = (ApiResponse.failure 400 ApiCode.FEATURE_NOT_SUPPORTED, exStore) :=
  C8_unsupported_fields exStore 0 1 10
    { position := some 1, duration := some 5, instructions := none }
    { position := some (JsonVal.jint 1), duration := some (JsonVal.jint 5),
      instructions := none }
    { id := 1, user_id := 0 } (exRow 10 1) (by decide) (by decide) (by decide) (by decide)

/-- C9: an entry created by a successful Insert stores the resolved
pose-version id — the row for the explicitly requested version if one was
given, else the pose's `current_version_id` at insert time; Move rewrites at
most the `position` field of existing rows, Remove only deletes, and
publishing a new version — appending a `pose_versions` row and repointing
`current_version_id` — leaves `sequence_poses` untouched, so previously
inserted entries keep referencing their original version. -/
theorem C9_version_pinning (st : Store) (userId sequenceId sequencePoseId : Nat)
    (addCmd : AddPoseToSequenceCommand) (updCmd : UpdateSequencePoseCommand)
    (vid : Nat) (row : SequencePoseRow) (st2 : Store)
    (hwf : WF st) (hb : st.writeBudget = none)
    (hres : resolvePoseVersion st addCmd.poseId addCmd.poseVersion = Except.ok vid)
    (hok : addPoseToSequence st userId sequenceId addCmd = (Except.ok row, st2)) :
    row.pose_version_id = vid ∧
    row ∈ st2.sequence_poses ∧
    (∀ v, addCmd.poseVersion = some v →
      ∃ pv ∈ st.pose_versions,
        pv.id = vid ∧ pv.pose_id = addCmd.poseId ∧ pv.version = v) ∧
    (addCmd.poseVersion = none →
      ∃ pose ∈ st.poses,
        pose.id = addCmd.poseId ∧ pose.current_version_id = some vid) ∧
    RowsFrom
      (((updateSequencePose st userId sequenceId sequencePoseId updCmd).2).sequence_poses)
      st.sequence_poses ∧
    RowsFrom
      (((removeSequencePose st userId sequenceId sequencePoseId).2).sequence_poses)
      st.sequence_poses ∧
    (∀ poseId newVersionId version,
      (publishPoseVersion st poseId newVersionId version).sequence_poses
        = st.sequence_poses) := by
  obtain ⟨hnd, hfresh⟩ := hwf
  have hrow : row.pose_version_id = vid ∧ row ∈ st2.sequence_poses := by
    cases hv : verifySequenceOwnership st sequenceId userId with
    | error e1 =>
        rw [addPoseToSequence_own_error hv] at hok
        exact absurd hok (by simp)
    | ok srow =>
      cases hp : addCmd.position with
      | none =>
          rw [addPoseToSequence_none_ok st userId sequenceId addCmd srow vid
            hb hfresh hv hres hp] at hok
          injection hok with h1 h2
          injection h1 with h1
          rw [← h1, ← h2]
          exact ⟨rfl, List.mem_append_right _ (List.mem_singleton.mpr rfl)⟩
      | some p =>
          by_cases hple : p ≤ getNextPosition st sequenceId
          · rw [addPoseToSequence_some_ok st userId sequenceId addCmd srow vid p
              hb hnd hfresh hv hres hp hple] at hok
            injection hok with h1 h2
            injection h1 with h1
            rw [← h1, ← h2]
            exact ⟨rfl, List.mem_append_right _ (List.mem_singleton.mpr rfl)⟩
          · rw [addPoseToSequence_invalid hv hres hp (by omega)] at hok
            exact absurd hok (by simp)
  refine ⟨hrow.1, hrow.2, ?_, ?_, ?_, ?_, ?_⟩
  · intro v hv
    rw [hv, resolvePoseVersion] at hres
    cases hf : st.pose_versions.find?
        (fun r => decide (r.pose_id = addCmd.poseId ∧ r.version = v)) with
    | none =>
        rw [hf] at hres
        exact absurd hres (by simp)
    | some pvrow =>
        rw [hf] at hres
        injection hres with h1
        have hprop : pvrow.pose_id = addCmd.poseId ∧ pvrow.version = v := by
          simpa using List.find?_some hf
        exact ⟨pvrow, List.mem_of_find?_eq_some hf, h1, hprop.1, hprop.2⟩
  · intro hv
    rw [hv, resolvePoseVersion] at hres
    cases hf : st.poses.find? (fun r => decide (r.id = addCmd.poseId)) with
    | none =>
        rw [hf] at hres
        exact absurd hres (by simp)
    | some pose =>
        rw [hf] at hres
        dsimp only at hres
        have hprop : pose.id = addCmd.poseId := by
          simpa using List.find?_some hf
        cases hc : pose.current_version_id with
        | none =>
            rw [hc] at hres
            exact absurd hres (by simp)
        | some vid2 =>
            rw [hc] at hres
            injection hres with h1
            exact ⟨pose, List.mem_of_find?_eq_some hf, hprop, by rw [hc, h1]⟩
  · exact updateSequencePose_rowsFrom st userId sequenceId sequencePoseId updCmd
  · exact removeSequencePose_rowsFrom st userId sequenceId sequencePoseId
  · intro poseId newVersionId version
    rfl

/-- The row created by the C9 witness insert, pinned to version row 7, and
the store it leaves behind. -/
def exRowNew : SequencePoseRow :=
  { id := 100, sequence_id := 1, pose_id := 5, pose_version_id := 7, position := 4 }

def exStoreC9 : Store :=
  { exStore with
    sequence_poses := exStore.sequence_poses ++ [exRowNew]
    nextId := 101
    trace := [WriteOp.ins exRowNew] }

/-- C9 witness: inserting pose 5 at explicitly requested version 1 pins the
new entry to version row 7; Move and Remove on the original store keep every
row's core fields; publishing never touches the entries. -/
theorem C9_witness :
    exRowNew.pose_version_id = 7 ∧
    exRowNew ∈ exStoreC9.sequence_poses ∧
    (∀ v, (some 1 : Option Int) = some v →
      ∃ pv ∈ exStore.pose_versions, pv.id = 7 ∧ pv.pose_id = 5 ∧ pv.version = v) ∧
    ((some 1 : Option Int) = none →
      ∃ pose ∈ exStore.poses, pose.id = 5 ∧ pose.current_version_id = some 7) ∧
    RowsFrom
      (((updateSequencePose exStore 0 1 10
        { position := some 2, duration := none, instructions := none }).2).sequence_poses)
      exStore.sequence_poses ∧
    RowsFrom (((removeSequencePose exStore 0 1 10).2).sequence_poses)
      exStore.sequence_poses ∧
    (∀ poseId newVersionId version,
      (publishPoseVersion exStore poseId newVersionId version).sequence_poses
        = exStore.sequence_poses) :=
  C9_version_pinning exStore 0 1 10
    { poseId := 5, poseVersion := some 1, position := none }
    { position := some 2, duration := none, instructions := none }
    7 exRowNew exStoreC9 (by decide) rfl (by decide) (by decide)

theorem zodPositiveInt_bound {x : Option JsonVal} {n : Int}
    (h : zodPositiveInt x = some (some n)) : 1 ≤ n := by
  cases x with
  | none => exact absurd h (by simp [zodPositiveInt])
  | some jv =>
    cases jv with
    | jint m =>
        simp only [zodPositiveInt] at h
        by_cases h1 : 1 ≤ m
        · rw [if_pos h1] at h
          injection h with h2
          injection h2 with h3
          omega
        · rw [if_neg h1] at h
          exact absurd h (by simp)
    | jnonIntNum => exact absurd h (by simp [zodPositiveInt])
    | jstr s => exact absurd h (by simp [zodPositiveInt])
    | jother => exact absurd h (by simp [zodPositiveInt])

theorem zodPositiveInt_none_of_low {jv : JsonVal}
    (h : ∀ n : Int, jv = JsonVal.jint n → n < 1) :
    zodPositiveInt (some jv) = none := by
  cases jv with
  | jint m =>
      simp only [zodPositiveInt]
      rw [if_neg]
      have := h m rfl
      omega
  | jnonIntNum => rfl
  | jstr s => rfl
  | jother => rfl

theorem addParse_none_of_position {b : AddPoseRequestBody}
    (h : zodPositiveInt b.position = none) :
    addPoseToSequenceSchemaParse b = none := by
  unfold addPoseToSequenceSchemaParse
  rw [h]
  cases hpid : b.poseId with
  | none => rfl
  | some pid => cases hpv : zodPositiveInt b.poseVersion with
    | none => rfl
    | some pv => rfl

theorem addParse_none_of_version {b : AddPoseRequestBody}
    (h : zodPositiveInt b.poseVersion = none) :
    addPoseToSequenceSchemaParse b = none := by
  unfold addPoseToSequenceSchemaParse
  rw [h]
  cases hpid : b.poseId with
  | none => rfl
  | some pid => rfl

theorem updParse_none_of_position {b : UpdatePoseRequestBody}
    (h : zodPositiveInt b.position = none) :
    updateSequencePoseSchemaParse b = none := by
  unfold updateSequencePoseSchemaParse
  rw [h]

/-- C10 (implicit): a POST or PATCH body whose position — or, for POST, its
poseVersion — is present but not a positive integer is rejected by the Zod
schema with `VALIDATION_ERROR` 400 before the service or store is touched,
and every command that does reach the service through a successful parse
carries only positions (and versions) `>= 1`; the service itself accepts any
supplied position up to `maxPosition` with no lower-bound check. -/
theorem C10_lower_bound_guard (st : Store) (userId sequenceId sequencePoseId : Nat)
    (addBody : AddPoseRequestBody) (updBody : UpdatePoseRequestBody) :
    (∀ jv, (addBody.position = some jv ∨ addBody.poseVersion = some jv) →
      (∀ n : Int, jv = JsonVal.jint n → n < 1) →
      handlePOST st userId sequenceId addBody
        = (ApiResponse.failure 400 ApiCode.VALIDATION_ERROR, st)) ∧
    (∀ jv, updBody.position = some jv →
      (∀ n : Int, jv = JsonVal.jint n → n < 1) →
      handlePATCH st userId sequenceId sequencePoseId updBody
        = (ApiResponse.failure 400 ApiCode.VALIDATION_ERROR, st)) ∧
    (∀ cmd, addPoseToSequenceSchemaParse addBody = some cmd →
      (∀ p, cmd.position = some p → 1 ≤ p) ∧
      (∀ v, cmd.poseVersion = some v → 1 ≤ v)) ∧
    (∀ cmd, updateSequencePoseSchemaParse updBody = some cmd →
      ∀ p, cmd.position = some p → 1 ≤ p) ∧
    (∀ addCmd srow vid p, st.writeBudget = none →
      (st.sequence_poses.map fun r => r.id).Nodup →
      (∀ r ∈ st.sequence_poses, r.id < st.nextId) →
      verifySequenceOwnership st sequenceId userId = Except.ok srow →
      resolvePoseVersion st addCmd.poseId addCmd.poseVersion = Except.ok vid →
      addCmd.position = some p → p ≤ getNextPosition st sequenceId →
      (addPoseToSequence st userId sequenceId addCmd).1
        = Except.ok { id := st.nextId, sequence_id := sequenceId, pose_id := addCmd.poseId, pose_version_id := vid, position := p }) := by
  refine ⟨?_, ?_, ?_, ?_, ?_⟩
  · intro jv hc hlow
    have hz := zodPositiveInt_none_of_low hlow
    have hp : addPoseToSequenceSchemaParse addBody = none := by
      rcases hc with hcp | hcv
      · exact addParse_none_of_position (by rw [hcp]; exact hz)
      · exact addParse_none_of_version (by rw [hcv]; exact hz)
    simp only [handlePOST, hp]
  · intro jv hc hlow
    have hz := zodPositiveInt_none_of_low hlow
    have hp : updateSequencePoseSchemaParse updBody = none :=
      updParse_none_of_position (by rw [hc]; exact hz)
    simp only [handlePATCH, hp]
  · intro cmd hcmd
    unfold addPoseToSequenceSchemaParse at hcmd
    cases hpid : addBody.poseId with
    | none => rw [hpid] at hcmd; exact absurd hcmd (by simp)
    | some pid =>
      rw [hpid] at hcmd
      cases hpv : zodPositiveInt addBody.poseVersion with
      | none => rw [hpv] at hcmd; exact absurd hcmd (by simp)
      | some pv =>
        rw [hpv] at hcmd
        cases hpos : zodPositiveInt addBody.position with
        | none => rw [hpos] at hcmd; exact absurd hcmd (by simp)
        | some pos =>
          rw [hpos] at hcmd
          injection hcmd with hcmd
          constructor
          · intro p hp
            rw [← hcmd] at hp
            exact zodPositiveInt_bound (by rw [← hp]; exact hpos)
          · intro v hv
            rw [← hcmd] at hv
            exact zodPositiveInt_bound (by rw [← hv]; exact hpv)
  · intro cmd hcmd
    unfold updateSequencePoseSchemaParse at hcmd
    cases hpos : zodPositiveInt updBody.position with
    | none => rw [hpos] at hcmd; exact absurd hcmd (by simp)
    | some pos =>
      rw [hpos] at hcmd
      cases hdur : zodNonnegInt updBody.duration with
      | none => rw [hdur] at hcmd; exact absurd hcmd (by simp)
      | some dur =>
        rw [hdur] at hcmd
        cases htxt : zodShortText updBody.instructions with
        | none => rw [htxt] at hcmd; exact absurd hcmd (by simp)
        | some txt =>
          rw [htxt] at hcmd
          dsimp only at hcmd
          by_cases hsome : pos.isSome || dur.isSome || txt.isSome
          · rw [if_pos hsome] at hcmd
            injection hcmd with hcmd
            intro p hp
            rw [← hcmd] at hp
            exact zodPositiveInt_bound (by rw [← hp]; exact hpos)
          · rw [if_neg hsome] at hcmd
            exact absurd hcmd (by simp)
  · intro addCmd srow vid p hb hnd hfresh hown hres hp hple
    rw [addPoseToSequence_some_ok st userId sequenceId addCmd srow vid p
      hb hnd hfresh hown hres hp hple]

/-- C10 witness: bodies carrying position 0 — an integer below the schema's
lower bound — are rejected with `VALIDATION_ERROR` 400 and no state change
by both handlers. -/
theorem C10_witness :
    handlePOST exStore 0 1
        { poseId := some 5, poseVersion := none, position := some (JsonVal.jint 0) }
      = (ApiResponse.failure 400 ApiCode.VALIDATION_ERROR, exStore) ∧
    handlePATCH exStore 0 1 10
        { position := some (JsonVal.jint 0), duration := none, instructions := none }
      = (ApiResponse.failure 400 ApiCode.VALIDATION_ERROR, exStore) :=
  ⟨(C10_lower_bound_guard exStore 0 1 10
      { poseId := some 5, poseVersion := none, position := some (JsonVal.jint 0) }
      { position := some (JsonVal.jint 0), duration := none, instructions := none }).1
    (JsonVal.jint 0) (Or.inl rfl) (fun n hn => by injection hn with h; omega),
   (C10_lower_bound_guard exStore 0 1 10
      { poseId := some 5, poseVersion := none, position := some (JsonVal.jint 0) }
      { position := some (JsonVal.jint 0), duration := none, instructions := none }).2.1
    (JsonVal.jint 0) rfl (fun n hn => by injection hn with h; omega)⟩

end YogaFlow
